import Mathlib

/-!
# The batch cache of `db/batch/kv_cache.go`

A shallow embedding of the two-level staging cache `kvCache` and of its six
operations `Read`, `Write`, `WriteIfNotExist`, `Evict`, `Clear`, `Append`,
followed by the properties proved about them.

Modelling conventions.

* A Go `map[string]V` is a partial function `String → Option V` (`GoMap V`):
  `none` means "key not present". Two maps are equal exactly when they hold
  the same keys with the same values, which is the only thing Go lets a
  program observe about a map (iteration order is unspecified). No property
  below needs the key set to be finite, so it is not recorded.
* Pointers handed to the operations (`*kvCacheKey`, `*kvCache`) are non-nil and
  the receiver's map is non-nil, as in every cache built by `NewKVCache`.
* The inner maps of `kvCache.cache` are Go references, but no inner map is
  ever shared between two caches (every inner map stored in `c.cache` comes
  from a fresh `make`), so the cache is modelled by value and a mutation of an
  inner map is written back into the outer map. The last part of the file
  places the caches in a store with addressed inner maps, proves that no
  sharing arises, and that each operation on the store refines its by-value
  counterpart (`store_Write`, `store_Append_refines` and their neighbours).
* A `*node` is never written through after its creation (each operation
  allocates a fresh `&node{...}`), so the pointer is modelled by the node value.
* A method with pointer receiver `c *kvCache` takes the cache state and
  returns the new cache state next to its Go results.
-/

namespace Batch

/-- A Go `[]byte`: `none` is the nil slice, `some bs` a non-nil slice holding `bs`. -/
abbrev Bytes := Option (List (Fin 256))

/-- Modelled from the spec: the sentinel errors `ErrNotExist`, `ErrAlreadyDeleted`,
`ErrAlreadyExist` and `ErrUnexpectedType` are declared in package `batch` outside
`kv_cache.go`; the spec (section 7) lists them as four distinct error kinds. A Go
`error` result is an `Option Error`, `none` being the nil error. -/
inductive Error where
  | ErrNotExist
  | ErrAlreadyDeleted
  | ErrAlreadyExist
  | ErrUnexpectedType
deriving DecidableEq, Repr

/-- A Go `map[string]V`. -/
def GoMap (V : Type) : Type := String → Option V

namespace GoMap

variable {V : Type}

/-- The empty map `make(map[string]V)`. -/
def make : GoMap V := fun _ => none

/-- The comma-ok lookup `v, ok := m[k]`. -/
def get (m : GoMap V) (k : String) : Option V := m k

/-- The assignment `m[k] = v`. -/
def set (m : GoMap V) (k : String) (v : V) : GoMap V :=
  fun j => if j = k then some v else m j

/-- The library call `maps.Copy(dst, src)`: `for k, v := range src { dst[k] = v }`. -/
def copy (dst src : GoMap V) : GoMap V :=
  fun j => match src j with
    | some v => some v
    | none => dst j

/-- The double lookup `v, ok := m[k1][k2]`; indexing the nil map that `m[k1]`
yields for a missing `k1` reports "not present". -/
def getIn (m : GoMap (GoMap V)) (k1 k2 : String) : Option V :=
  match m.get k1 with
  | some ns => ns.get k2
  | none => none

/-- The nested assignment `m[k1][k2] = v`. The inner map `m[k1]` is a reference, so
the update is seen through `m`. Every call site first makes `k1` present
(`present_after_make`); for a missing `k1` Go would stop with "assignment to entry in
nil map", and the model leaves `m` as it is. -/
def setIn (m : GoMap (GoMap V)) (k1 k2 : String) (v : V) : GoMap (GoMap V) :=
  match m.get k1 with
  | some ns => m.set k1 (ns.set k2 v)
  | none => m

end GoMap

/-- The key for the 2D map cache (`kvCacheKey`). -/
structure kvCacheKey where
  key1 : String
  key2 : String
deriving DecidableEq, Repr

/-- A cache entry (`node`): a payload and the tombstone flag. -/
structure node where
  value : Bytes
  deleted : Bool
deriving DecidableEq, Repr

/-- The cache (`kvCache`): bucket ↦ item ↦ entry. -/
structure kvCache where
  cache : GoMap (GoMap node)

/-- `NewKVCache` returns a cache whose outer map is empty. -/
def NewKVCache : kvCache :=
  { cache := GoMap.make }

/-- `Read` retrieves a record. It returns the Go results `([]byte, error)` and the
cache, which it never assigns to. -/
def Read (c : kvCache) (key : kvCacheKey) : (Bytes × Option Error) × kvCache :=
  match c.cache.get key.key1 with
  | some ns =>
    match ns.get key.key2 with
    | some n =>
      if n.deleted then ((none, some Error.ErrAlreadyDeleted), c)
      else ((n.value, none), c)
    | none => ((none, some Error.ErrNotExist), c)
  | none => ((none, some Error.ErrNotExist), c)

/-- `Write` puts a record into the cache. -/
def Write (c : kvCache) (key : kvCacheKey) (v : Bytes) : kvCache :=
  let c1 : kvCache :=
    if (c.cache.get key.key1).isNone then { cache := c.cache.set key.key1 GoMap.make } else c
  { cache := GoMap.setIn c1.cache key.key1 key.key2 { value := v, deleted := false } }

/-- `WriteIfNotExist` puts a record into the cache only if it does not exist, otherwise
it returns `ErrAlreadyExist`. -/
def WriteIfNotExist (c : kvCache) (key : kvCacheKey) (v : Bytes) : Option Error × kvCache :=
  let c1 : kvCache :=
    if (c.cache.get key.key1).isNone then { cache := c.cache.set key.key1 GoMap.make } else c
  let stored : kvCache :=
    { cache := GoMap.setIn c1.cache key.key1 key.key2 { value := v, deleted := false } }
  match GoMap.getIn c1.cache key.key1 key.key2 with
  | some n => if !n.deleted then (some Error.ErrAlreadyExist, c1) else (none, stored)
  | none => (none, stored)

/-- `Evict` deletes a record from the cache: it stores a tombstone. -/
def Evict (c : kvCache) (key : kvCacheKey) : kvCache :=
  let c1 : kvCache :=
    if (c.cache.get key.key1).isNone then { cache := c.cache.set key.key1 GoMap.make } else c
  { cache := GoMap.setIn c1.cache key.key1 key.key2 { value := none, deleted := true } }

/-- `Clear` replaces the outer map by a fresh empty one. -/
def Clear (_c : kvCache) : kvCache :=
  { cache := GoMap.make }

/-- An argument of `Append`, a value of the interface type `KVStoreCache`: the
receiver pointer itself, another `*kvCache` (a distinct object, given by its state,
which `Append` never assigns to), or a value of any other implementation of the
interface. -/
inductive KVStoreCache where
  | self
  | kv (cc : kvCache)
  | foreign

/-- The body of the inner loop of `Append` for one bucket `key1, ns` of the source:
`if _, ok := c.cache[key1]; !ok { c.cache[key1] = make(...) }` and then
`maps.Copy(c.cache[key1], ns)`, which mutates the receiver's inner map in place. -/
def appendBucket (m : GoMap (GoMap node)) (key1 : String) (ns : GoMap node) :
    GoMap (GoMap node) :=
  let m1 := if (m.get key1).isNone then m.set key1 GoMap.make else m
  match m1.get key1 with
  | some dst => m1.set key1 (GoMap.copy dst ns)
  | none => m1

/-- The loop `for key1, ns := range cc.cache { ... }` of `Append` for one source. Each
bucket of the source is visited once and the body for `key1` assigns to bucket `key1`
of the receiver only, so the receiver's bucket `key1` after the loop is the one the
body for `key1` leaves, and a bucket the source does not have is untouched; see
`appendCache_eq_loop` for the loop run in any order. -/
def appendCache (c cc : kvCache) : kvCache :=
  { cache := fun key1 =>
      match cc.cache.get key1 with
      | some ns => (appendBucket c.cache key1 ns).get key1
      | none => c.cache.get key1 }

/-- `Append` merges the argument caches into the receiver, in order, and stops with
`ErrUnexpectedType` at the first argument that is not a `*kvCache`. When the argument
is the receiver itself the source map read by the loop is the receiver's current map. -/
def Append (c : kvCache) : List KVStoreCache → Option Error × kvCache
  | [] => (none, c)
  | KVStoreCache.foreign :: _ => (some Error.ErrUnexpectedType, c)
  | KVStoreCache.kv cc :: rest => Append (appendCache c cc) rest
  | KVStoreCache.self :: rest => Append (appendCache c c) rest

/-- The `ok` of the type assertion `cc, ok := cc.(*kvCache)` in `Append`. -/
def KVStoreCache.isKvCache : KVStoreCache → Bool
  | KVStoreCache.self => true
  | KVStoreCache.kv _ => true
  | KVStoreCache.foreign => false

/-- The entry a cache holds for a composite key, if any: `none` when the bucket is
unknown or the item is absent from a known bucket. -/
def entry (c : kvCache) (k : kvCacheKey) : Option node :=
  GoMap.getIn c.cache k.key1 k.key2

/-- The cache states reachable from `NewKVCache` by the six operations; the
`*kvCache` sources handed to `Append` are reachable caches themselves. -/
inductive Reachable : kvCache → Prop
  | new : Reachable NewKVCache
  | read (c : kvCache) (k : kvCacheKey) : Reachable c → Reachable (Read c k).2
  | write (c : kvCache) (k : kvCacheKey) (v : Bytes) : Reachable c → Reachable (Write c k v)
  | writeIfNotExist (c : kvCache) (k : kvCacheKey) (v : Bytes) :
      Reachable c → Reachable (WriteIfNotExist c k v).2
  | evict (c : kvCache) (k : kvCacheKey) : Reachable c → Reachable (Evict c k)
  | clear (c : kvCache) : Reachable c → Reachable (Clear c)
  | append (c : kvCache) (args : List KVStoreCache) :
      Reachable c → (∀ s, KVStoreCache.kv s ∈ args → Reachable s) →
      Reachable (Append c args).2

/-- Every tombstone of the state has the nil payload. -/
def TombstonesCleared (c : kvCache) : Prop :=
  ∀ k n, entry c k = some n → n.deleted = true → n.value = none

/-- Every bucket of the state holds at least one item. -/
def NoEmptyBucket (c : kvCache) : Prop :=
  ∀ b, (c.cache.get b).isSome = true → ∃ i n, entry c ⟨b, i⟩ = some n

/-- One call on a cache other than `Clear`, with its arguments. -/
inductive Op where
  | read (k : kvCacheKey)
  | write (k : kvCacheKey) (v : Bytes)
  | writeIfNotExist (k : kvCacheKey) (v : Bytes)
  | evict (k : kvCacheKey)
  | append (args : List KVStoreCache)

/-- The cache state a call leaves. -/
def Op.apply (c : kvCache) : Op → kvCache
  | Op.read k => (Read c k).2
  | Op.write k v => Write c k v
  | Op.writeIfNotExist k v => (WriteIfNotExist c k v).2
  | Op.evict k => Evict c k
  | Op.append args => (Append c args).2

/-- A sequence of calls, applied from left to right. -/
def run (c : kvCache) (ops : List Op) : kvCache :=
  ops.foldl Op.apply c

/-- The call is a `Write`, `WriteIfNotExist` or `Evict` whose key has bucket `b`. -/
def Op.touches (b : String) : Op → Bool
  | Op.write k _ => decide (k.key1 = b)
  | Op.writeIfNotExist k _ => decide (k.key1 = b)
  | Op.evict k => decide (k.key1 = b)
  | Op.read _ => false
  | Op.append _ => false

/-- Replaying one key of a source `S` on a cache `c`, in the spec's words:
`Write(k, payload)` when the entry of `S` for `k` is live, `Evict(k)` when it is a
tombstone (and nothing for a key `S` does not hold). -/
def replayKey (S c : kvCache) (k : kvCacheKey) : kvCache :=
  match entry S k with
  | some n => if n.deleted then Evict c k else Write c k n.value
  | none => c

/-- Replaying the keys `ks` of a source `S` on a cache `A`, in the order of `ks`. -/
def replay (A S : kvCache) (ks : List kvCacheKey) : kvCache :=
  ks.foldl (replayKey S) A

/-! ## The integer marker list -/

/-- The companion type `kvCacheValue`, a Go `[]int` seen as the list of its elements.
No arithmetic is done on the elements, so a Go `int` element is an `Int`. An
operation that panics on an index or slice bound out of range returns `none`. -/
abbrev kvCacheValue := List Int

/-- `newkvCacheValue` wraps the given slice. -/
def newkvCacheValue (v : List Int) : kvCacheValue := v

namespace kvCacheValue

/-- `len` returns `len(*kv)`. -/
def len (kv : kvCacheValue) : Int := (List.length kv : Nat)

/-- `reset`: `(*kv)[0] = 0` and then `*kv = (*kv)[:1]`. The index expression checks
`0 < len(*kv)`. -/
def reset (kv : kvCacheValue) : Option kvCacheValue :=
  if 0 < List.length kv then some (List.take 1 (List.set kv 0 0)) else none

/-- `pop`: `*kv = (*kv)[:kv.len()-1]`; the slice bound must not be negative. -/
def pop (kv : kvCacheValue) : Option kvCacheValue :=
  if 0 ≤ len kv - 1 then some (List.take (len kv - 1).toNat kv) else none

/-- `get` returns the slice itself. -/
def get (kv : kvCacheValue) : List Int := kv

/-- `getAt` returns `(*kv)[i]`; the index must satisfy `0 ≤ i < len(*kv)`. -/
def getAt (kv : kvCacheValue) (i : Int) : Option Int :=
  if 0 ≤ i ∧ i < len kv then kv[i.toNat]? else none

/-- `append`: `*kv = append(*kv, v)`. -/
def append (kv : kvCacheValue) (v : Int) : kvCacheValue := kv ++ [v]

/-- `last` returns `(*kv)[len(*kv)-1]`. -/
def last (kv : kvCacheValue) : Option Int :=
  if 0 ≤ len kv - 1 ∧ len kv - 1 < len kv then kv[(len kv - 1).toNat]? else none

end kvCacheValue

/-! ## Several cache objects in one store

To speak about a source of `Append` before and after the call, and about calls on
one cache seen from another, the caches are placed in a store in which the inner maps
are objects with addresses, as the values of `map[string]map[string]*node` are in Go.
A call that stored the address of a source's inner map in the receiver would make the
two caches share that map; in this model such sharing can be expressed and is shown
not to arise. -/

/-- The address of an inner map object. -/
abbrev Ref := Nat

/-- A store with cache objects numbered by `Nat`: `outer a` is the map `c.cache` of
the cache object `a`, whose values are addresses of inner maps; `inner r` is the
content of the inner map at address `r`; `next` is the first address that `make` has
not handed out. -/
structure Store where
  outer : Nat → GoMap Ref
  inner : Ref → GoMap node
  next : Ref

namespace Store

/-- The store in which every cache object is fresh from `NewKVCache`. -/
def empty : Store :=
  { outer := fun _ => GoMap.make, inner := fun _ => GoMap.make, next := 0 }

/-- The state of the cache object `a`, read through the addresses. -/
def view (st : Store) (a : Nat) : kvCache :=
  { cache := fun b => ((st.outer a).get b).map st.inner }

/-- The guard `if _, ok := c.cache[key1]; !ok { c.cache[key1] = make(...) }` on the
cache object `a`; `make` hands out the address `next`. -/
def ensure (st : Store) (a : Nat) (key1 : String) : Store :=
  if ((st.outer a).get key1).isNone then
    { outer := Function.update st.outer a ((st.outer a).set key1 st.next)
      inner := Function.update st.inner st.next GoMap.make
      next := st.next + 1 }
  else st

/-- The nested assignment `c.cache[key1][key2] = n` on the cache object `a`: it
writes into the inner map object whose address `c.cache[key1]` holds. -/
def assign (st : Store) (a : Nat) (key1 key2 : String) (n : node) : Store :=
  match (st.outer a).get key1 with
  | some r => { st with inner := Function.update st.inner r ((st.inner r).set key2 n) }
  | none => st

/-- `Read` on the cache object `a`. -/
def Read (st : Store) (a : Nat) (key : kvCacheKey) : (Bytes × Option Error) × Store :=
  match (st.outer a).get key.key1 with
  | some r =>
    match (st.inner r).get key.key2 with
    | some n =>
      if n.deleted then ((none, some Error.ErrAlreadyDeleted), st)
      else ((n.value, none), st)
    | none => ((none, some Error.ErrNotExist), st)
  | none => ((none, some Error.ErrNotExist), st)

/-- `Write` on the cache object `a`. -/
def Write (st : Store) (a : Nat) (key : kvCacheKey) (v : Bytes) : Store :=
  (st.ensure a key.key1).assign a key.key1 key.key2 { value := v, deleted := false }

/-- `WriteIfNotExist` on the cache object `a`. -/
def WriteIfNotExist (st : Store) (a : Nat) (key : kvCacheKey) (v : Bytes) :
    Option Error × Store :=
  let st1 := st.ensure a key.key1
  let found : Option node :=
    match (st1.outer a).get key.key1 with
    | some r => (st1.inner r).get key.key2
    | none => none
  match found with
  | some n =>
    if !n.deleted then (some Error.ErrAlreadyExist, st1)
    else (none, st1.assign a key.key1 key.key2 { value := v, deleted := false })
  | none => (none, st1.assign a key.key1 key.key2 { value := v, deleted := false })

/-- `Evict` on the cache object `a`. -/
def Evict (st : Store) (a : Nat) (key : kvCacheKey) : Store :=
  (st.ensure a key.key1).assign a key.key1 key.key2 { value := none, deleted := true }

/-- `Clear` on the cache object `a`: `c.cache` becomes a fresh empty outer map. -/
def Clear (st : Store) (a : Nat) : Store :=
  { st with outer := Function.update st.outer a GoMap.make }

/-- The body of the loop `for key1, ns := range cc.cache` of `Append`, receiver `a` and
source `s`, for a bucket `key1` that `range` yields (a `key1` that is no bucket of the
source is never yielded: the store stays as it is). `maps.Copy` writes into the inner
map object of the receiver's bucket. -/
def appendBucket (st : Store) (a s : Nat) (key1 : String) : Store :=
  match (st.outer s).get key1 with
  | none => st
  | some rs =>
    let st1 := st.ensure a key1
    match (st1.outer a).get key1 with
    | some r =>
      let copied := GoMap.copy (st1.inner r) (st1.inner rs)
      { st1 with inner := Function.update st1.inner r copied }
    | none => st1

/-- The loop `for key1, ns := range cc.cache` for the source `s`, the buckets being
yielded in the order `order`. -/
def appendCache (st : Store) (a s : Nat) (order : List String) : Store :=
  order.foldl (fun st1 key1 => st1.appendBucket a s key1) st

end Store

/-- An argument of `Append` in a store: a cache object (the receiver itself or
another one) with the order in which `range` yields its buckets, or a value of a
foreign implementation. -/
inductive CacheArg where
  | cache (s : Nat) (order : List String)
  | foreign

namespace Store

/-- `Append` on the cache object `a`. -/
def Append (st : Store) (a : Nat) : List CacheArg → Option Error × Store
  | [] => (none, st)
  | CacheArg.foreign :: _ => (some Error.ErrUnexpectedType, st)
  | CacheArg.cache s order :: rest => Append (st.appendCache a s order) a rest

/-- The argument of `Append` on the cache object `a` as the by-value model sees it:
the receiver itself, another cache given by its state, or a foreign value. -/
def toKVStoreCache (st : Store) (a : Nat) : CacheArg → KVStoreCache
  | CacheArg.cache s _ => if s = a then KVStoreCache.self else KVStoreCache.kv (st.view s)
  | CacheArg.foreign => KVStoreCache.foreign

/-- No inner map object is shared: an address stored in an outer map has been handed
out by `make`, and it is stored under one bucket of one cache object only. -/
def Separated (st : Store) : Prop :=
  (∀ a b r, (st.outer a).get b = some r → r < st.next) ∧
  (∀ a a2 b b2 r, (st.outer a).get b = some r → (st.outer a2).get b2 = some r →
    a = a2 ∧ b = b2)

/-- A call on the cache object `a` took `st` to `st2`: nothing is shared afterwards
and every other cache object has the state it had. -/
def Frames (a : Nat) (st st2 : Store) : Prop :=
  st2.Separated ∧ ∀ s, s ≠ a → st2.view s = st.view s

end Store

/-! ## Map lemmas -/

namespace GoMap

variable {V : Type}

theorem ext {m₁ m₂ : GoMap V} (h : ∀ k, m₁.get k = m₂.get k) : m₁ = m₂ :=
  funext h

@[simp]
theorem get_make (k : String) : (make : GoMap V).get k = none := rfl

@[simp]
theorem get_set_self (m : GoMap V) (k : String) (v : V) :
    (m.set k v).get k = some v := by
  simp [get, set]

theorem get_set_ne (m : GoMap V) {j k : String} (v : V) (h : j ≠ k) :
    (m.set k v).get j = m.get j := by
  simp [get, set, h]

theorem get_set (m : GoMap V) (j k : String) (v : V) :
    (m.set k v).get j = if j = k then some v else m.get j := rfl

theorem get_copy (dst src : GoMap V) (k : String) :
    (copy dst src).get k = (src.get k).or (dst.get k) := by
  show (match src k with | some v => some v | none => dst k) = (src k).or (dst k)
  cases src k <;> rfl

/-- Storing at a key the value it already has changes nothing. -/
theorem set_get_same (m : GoMap V) (k : String) (v : V) (h : m.get k = some v) :
    m.set k v = m := by
  apply ext
  intro j
  rw [get_set]
  split
  · next hj => rw [hj, h]
  · rfl

/-- The guard in front of every nested assignment: after
`if _, ok := m[k1]; !ok { m[k1] = make(...) }` the bucket `k1` is present. -/
theorem present_after_make (m : GoMap (GoMap V)) (k1 : String) :
    ((if (m.get k1).isNone then m.set k1 make else m).get k1).isSome = true := by
  cases h : m.get k1 <;> simp [h]

end GoMap

/-! ## Entries and the single-key operations -/

/-- What the guarded nested assignment of `Write`, `WriteIfNotExist` and `Evict`
does to every double lookup. -/
theorem getIn_guarded_setIn {V : Type} (m : GoMap (GoMap V)) (k1 k2 j1 j2 : String) (v : V) :
    GoMap.getIn (GoMap.setIn (if (m.get k1).isNone then m.set k1 GoMap.make else m) k1 k2 v)
        j1 j2
      = if j1 = k1 ∧ j2 = k2 then some v else GoMap.getIn m j1 j2 := by
  unfold GoMap.getIn GoMap.setIn
  cases h : m.get k1 with
  | none =>
    by_cases h1 : j1 = k1
    · subst h1
      by_cases h2 : j2 = k2 <;> simp [h, GoMap.get_set, h2]
    · simp [h, GoMap.get_set, h1]
  | some ns =>
    by_cases h1 : j1 = k1
    · subst h1
      by_cases h2 : j2 = k2 <;> simp [h, GoMap.get_set, h2]
    · simp [h, GoMap.get_set, h1]

theorem entry_Write (c : kvCache) (k j : kvCacheKey) (v : Bytes) :
    entry (Write c k v) j
      = if j.key1 = k.key1 ∧ j.key2 = k.key2 then some { value := v, deleted := false }
        else entry c j := by
  unfold entry Write
  cases h : c.cache.get k.key1 <;>
    simpa [h] using getIn_guarded_setIn c.cache k.key1 k.key2 j.key1 j.key2 _

theorem entry_Evict (c : kvCache) (k j : kvCacheKey) :
    entry (Evict c k) j
      = if j.key1 = k.key1 ∧ j.key2 = k.key2 then some { value := none, deleted := true }
        else entry c j := by
  unfold entry Evict
  cases h : c.cache.get k.key1 <;>
    simpa [h] using getIn_guarded_setIn c.cache k.key1 k.key2 j.key1 j.key2 _

/-- The results of `Read` are a function of the entry held for the key. -/
theorem Read_eq_entry (c : kvCache) (k : kvCacheKey) :
    (Read c k).1 =
      match entry c k with
      | none => (none, some Error.ErrNotExist)
      | some n => if n.deleted then (none, some Error.ErrAlreadyDeleted) else (n.value, none) := by
  unfold Read entry GoMap.getIn
  cases c.cache.get k.key1 with
  | none => rfl
  | some ns =>
    dsimp only
    cases ns.get k.key2 with
    | none => rfl
    | some n => cases hd : n.deleted <;> simp [hd]

/-- Two caches holding the same entry for a key answer `Read` alike. -/
theorem Read_congr {c d : kvCache} {k j : kvCacheKey} (h : entry c k = entry d j) :
    (Read c k).1 = (Read d j).1 := by
  rw [Read_eq_entry, Read_eq_entry, h]

/-- C1. After `Write(k, v)` on any cache state, `Read(k)` returns exactly `v` and the
nil error, whatever the cache held for `k` before. -/
theorem Write_then_Read (c : kvCache) (k : kvCacheKey) (v : Bytes) :
    (Read (Write c k v) k).1 = (v, none) := by
  rw [Read_eq_entry, entry_Write]
  simp

/-- C2. `Read(k)` returns `ErrNotExist` exactly when the cache holds no entry for `k`
(bucket unknown, or bucket known and item absent), `ErrAlreadyDeleted` exactly when the
entry for `k` is a tombstone, and the stored payload with the nil error for a live
entry; an error comes with the nil payload, and every `Read` on a cache fresh from
`NewKVCache` returns `ErrNotExist`. -/
theorem Read_outcome (c : kvCache) (k : kvCacheKey) :
    ((Read c k).1.2 = some Error.ErrNotExist ↔ entry c k = none) ∧
    (entry c k = none ↔
      (c.cache.get k.key1 = none ∨
        ∃ ns, c.cache.get k.key1 = some ns ∧ ns.get k.key2 = none)) ∧
    ((Read c k).1.2 = some Error.ErrAlreadyDeleted ↔
      ∃ n, entry c k = some n ∧ n.deleted = true) ∧
    ((Read c k).1.2 = none ↔ ∃ n, entry c k = some n ∧ n.deleted = false) ∧
    (∀ n, entry c k = some n → n.deleted = false → (Read c k).1 = (n.value, none)) ∧
    ((Read c k).1.2 ≠ none → (Read c k).1.1 = none) ∧
    (∀ j, (Read NewKVCache j).1 = (none, some Error.ErrNotExist)) := by
  refine ⟨?_, ?_, ?_, ?_, ?_, ?_, ?_⟩
  · rw [Read_eq_entry]
    cases entry c k with
    | none => simp
    | some n => cases hd : n.deleted <;> simp [hd]
  · unfold entry GoMap.getIn
    cases c.cache.get k.key1 with
    | none => simp
    | some ns => simp
  · rw [Read_eq_entry]
    cases entry c k with
    | none => simp
    | some n => cases hd : n.deleted <;> simp [hd]
  · rw [Read_eq_entry]
    cases entry c k with
    | none => simp
    | some n => cases hd : n.deleted <;> simp [hd]
  · intro n hn hd
    rw [Read_eq_entry, hn]
    simp [hd]
  · rw [Read_eq_entry]
    cases entry c k with
    | none => simp
    | some n => cases hd : n.deleted <;> simp [hd]
  · intro j
    rfl

/-- A cache with a live entry, read back through `Read_outcome`. -/
theorem Read_outcome_witness :
    (Read (Evict (Write NewKVCache ⟨"b", "i"⟩ (some [1, 2])) ⟨"b", "j"⟩) ⟨"b", "i"⟩).1
      = (some [1, 2], none) :=
  (Read_outcome (Evict (Write NewKVCache ⟨"b", "i"⟩ (some [1, 2])) ⟨"b", "j"⟩)
      ⟨"b", "i"⟩).2.2.2.2.1 { value := some [1, 2], deleted := false } (by decide) rfl

/-- C3. After `Evict(k)` on any cache state, whether or not `k` was ever written,
`Read(k)` returns `ErrAlreadyDeleted`; after a further `Write(k, v)`, `Read(k)` returns
`v` and the nil error. -/
theorem Evict_then_Read (c : kvCache) (k : kvCacheKey) (v : Bytes) :
    (Read (Evict c k) k).1 = (none, some Error.ErrAlreadyDeleted) ∧
    (Read (Write (Evict c k) k v) k).1 = (v, none) := by
  constructor
  · rw [Read_eq_entry, entry_Evict]
    simp
  · rw [Read_eq_entry, entry_Write]
    simp

/-- Making the bucket present changes no double lookup. -/
theorem getIn_guard {V : Type} (m : GoMap (GoMap V)) (k1 j1 j2 : String) :
    GoMap.getIn (if (m.get k1).isNone then m.set k1 GoMap.make else m) j1 j2
      = GoMap.getIn m j1 j2 := by
  unfold GoMap.getIn
  cases h : m.get k1 with
  | none =>
    by_cases h1 : j1 = k1
    · subst h1
      simp [h]
    · simp [GoMap.get_set, h1]
  | some ns => simp

/-- The results of `WriteIfNotExist` as a function of the entry held for the key. -/
theorem WriteIfNotExist_eq (c : kvCache) (k : kvCacheKey) (v : Bytes) :
    WriteIfNotExist c k v =
      match entry c k with
      | none => (none, Write c k v)
      | some n => if n.deleted then (none, Write c k v) else (some Error.ErrAlreadyExist, c) := by
  unfold WriteIfNotExist Write entry
  cases h : c.cache.get k.key1 with
  | none => simp [GoMap.getIn, h]
  | some ns =>
    simp only [Option.isNone_some, Bool.false_eq_true, if_false]
    cases h2 : GoMap.getIn c.cache k.key1 k.key2 with
    | none => rfl
    | some n => cases hd : n.deleted <;> simp [hd]

/-- C4. `WriteIfNotExist(k, v)` returns nil if and only if the cache holds no entry
for `k` or holds a tombstone for `k`, and in that case the resulting cache state is
the state `Write(k, v)` produces; it returns `ErrAlreadyExist` if and only if the
cache holds a live entry for `k`. -/
theorem WriteIfNotExist_outcome (c : kvCache) (k : kvCacheKey) (v : Bytes) :
    ((WriteIfNotExist c k v).1 = none ↔
      (entry c k = none ∨ ∃ n, entry c k = some n ∧ n.deleted = true)) ∧
    ((WriteIfNotExist c k v).1 = none → (WriteIfNotExist c k v).2 = Write c k v) ∧
    ((WriteIfNotExist c k v).1 = some Error.ErrAlreadyExist ↔
      ∃ n, entry c k = some n ∧ n.deleted = false) := by
  rw [WriteIfNotExist_eq]
  cases entry c k with
  | none => simp
  | some n => cases hd : n.deleted <;> simp [hd]

/-- A tombstoned key: `WriteIfNotExist` succeeds and leaves the state of `Write`. -/
theorem WriteIfNotExist_outcome_witness :
    (WriteIfNotExist (Evict NewKVCache ⟨"b", "i"⟩) ⟨"b", "i"⟩ (some [7])).2
      = Write (Evict NewKVCache ⟨"b", "i"⟩) ⟨"b", "i"⟩ (some [7]) :=
  (WriteIfNotExist_outcome (Evict NewKVCache ⟨"b", "i"⟩) ⟨"b", "i"⟩ (some [7])).2.1
    (by decide)

/-- C5. When `WriteIfNotExist(k, v)` returns `ErrAlreadyExist` the whole cache state
is unchanged: no bucket is created, and `Read(k)` still returns the payload of the
live entry the cache held for `k`. -/
theorem WriteIfNotExist_conflict_no_mutation (c : kvCache) (k : kvCacheKey) (v : Bytes)
    (h : (WriteIfNotExist c k v).1 = some Error.ErrAlreadyExist) :
    (WriteIfNotExist c k v).2 = c ∧
    (∀ b, c.cache.get b = none → (WriteIfNotExist c k v).2.cache.get b = none) ∧
    (∃ n, entry c k = some n ∧ n.deleted = false ∧
      (Read (WriteIfNotExist c k v).2 k).1 = (n.value, none)) := by
  have hw := WriteIfNotExist_eq c k v
  cases he : entry c k with
  | none =>
    rw [he] at hw
    simp [hw] at h
  | some n =>
    rw [he] at hw
    cases hd : n.deleted with
    | true => simp [hw, hd] at h
    | false =>
      simp only [hd, Bool.false_eq_true, if_false] at hw
      rw [hw]
      refine ⟨rfl, fun b hb => hb, n, rfl, hd, ?_⟩
      rw [Read_eq_entry, he]
      simp [hd]

/-- A live key: `WriteIfNotExist` reports the conflict and changes nothing. -/
theorem WriteIfNotExist_conflict_no_mutation_witness :
    (WriteIfNotExist (Write NewKVCache ⟨"b", "i"⟩ (some [1])) ⟨"b", "i"⟩ (some [2])).1
        = some Error.ErrAlreadyExist ∧
    (WriteIfNotExist (Write NewKVCache ⟨"b", "i"⟩ (some [1])) ⟨"b", "i"⟩ (some [2])).2
        = Write NewKVCache ⟨"b", "i"⟩ (some [1]) :=
  ⟨by decide,
    (WriteIfNotExist_conflict_no_mutation (Write NewKVCache ⟨"b", "i"⟩ (some [1]))
      ⟨"b", "i"⟩ (some [2]) (by decide)).1⟩

/-! ## Append -/

/-- The loop body of `Append` assigns to bucket `b` only, and leaves there the
receiver's bucket (empty when it was missing) overwritten by the source's items. -/
theorem get_appendBucket (m : GoMap (GoMap node)) (b j : String) (ns : GoMap node) :
    (appendBucket m b ns).get j
      = if j = b then some (GoMap.copy ((m.get b).getD GoMap.make) ns) else m.get j := by
  unfold appendBucket
  cases h : m.get b with
  | none =>
    by_cases hj : j = b
    · subst hj
      simp [GoMap.get_set]
    · simp [GoMap.get_set, hj]
  | some dst =>
    by_cases hj : j = b
    · subst hj
      simp [h, GoMap.get_set]
    · simp [h, GoMap.get_set, hj]

theorem get_appendCache (c cc : kvCache) (b : String) :
    (appendCache c cc).cache.get b
      = match cc.cache.get b with
        | some ns => some (GoMap.copy ((c.cache.get b).getD GoMap.make) ns)
        | none => c.cache.get b := by
  show (match cc.cache.get b with
        | some ns => (appendBucket c.cache b ns).get b
        | none => c.cache.get b) = _
  cases cc.cache.get b with
  | none => rfl
  | some ns => simp [get_appendBucket]

/-- The loop `for k, v := range src { dst[k] = v }` behind `maps.Copy`, run over any
enumeration `ks` of the keys of `src`, yields `GoMap.copy dst src`. -/
theorem copy_eq_loop {V : Type} (src : GoMap V) (ks : List String)
    (hks : ∀ k, k ∈ ks ↔ (src.get k).isSome = true) (dst : GoMap V) :
    ks.foldl (fun d k => match src.get k with
        | some v => d.set k v
        | none => d) dst = GoMap.copy dst src := by
  have key : ∀ (l : List String) (d : GoMap V) (j : String),
      (l.foldl (fun d k => match src.get k with
        | some v => d.set k v
        | none => d) d).get j = if j ∈ l then (src.get j).or (d.get j) else d.get j := by
    intro l
    induction l with
    | nil => intro d j; simp
    | cons a l ih =>
      intro d j
      rw [List.foldl_cons, ih]
      cases ha : src.get a with
      | none =>
        by_cases hja : j = a
        · subst hja
          simp [ha]
        · simp [hja]
      | some v =>
        by_cases hja : j = a
        · subst hja
          simp [ha]
        · simp [hja, GoMap.get_set]
  apply GoMap.ext
  intro j
  rw [key, GoMap.get_copy]
  by_cases hj : j ∈ ks
  · simp [hj]
  · have hn : src.get j = none := by
      cases h : src.get j with
      | none => rfl
      | some v => exact absurd ((hks j).2 (by simp [h])) hj
    simp [hj, hn]

/-- The loop `for key1, ns := range cc.cache { ... }` of `Append`, run over any
enumeration `bs` of the buckets of the source, yields the map of `appendCache`. -/
theorem appendCache_eq_loop (c cc : kvCache) (bs : List String)
    (hbs : ∀ b, b ∈ bs ↔ (cc.cache.get b).isSome = true) :
    bs.foldl (fun m key1 => match cc.cache.get key1 with
        | some ns => appendBucket m key1 ns
        | none => m) c.cache = (appendCache c cc).cache := by
  have key : ∀ (l : List String) (m : GoMap (GoMap node)) (j : String),
      (l.foldl (fun m key1 => match cc.cache.get key1 with
        | some ns => appendBucket m key1 ns
        | none => m) m).get j
        = if j ∈ l then
            (match cc.cache.get j with
              | some ns => some (GoMap.copy ((m.get j).getD GoMap.make) ns)
              | none => m.get j)
          else m.get j := by
    intro l
    induction l with
    | nil => intro m j; simp
    | cons a l ih =>
      intro m j
      rw [List.foldl_cons, ih]
      cases ha : cc.cache.get a with
      | none =>
        by_cases hja : j = a
        · subst hja
          simp [ha]
        · simp [hja]
      | some ns =>
        by_cases hja : j = a
        · subst hja
          have hcc : GoMap.copy (GoMap.copy ((m.get j).getD GoMap.make) ns) ns
              = GoMap.copy ((m.get j).getD GoMap.make) ns := by
            apply GoMap.ext
            intro i
            simp only [GoMap.get_copy]
            cases ns.get i <;> simp
          simp [ha, get_appendBucket, hcc]
        · simp [hja, get_appendBucket]
  apply GoMap.ext
  intro j
  rw [key, get_appendCache]
  by_cases hj : j ∈ bs
  · simp [hj]
  · have hn : cc.cache.get j = none := by
      cases h : cc.cache.get j with
      | none => rfl
      | some v => exact absurd ((hbs j).2 (by simp [h])) hj
    simp [hj, hn]

/-- One source merged: its entry for a key wins, and a key it does not hold keeps the
receiver's entry. -/
theorem entry_appendCache (c cc : kvCache) (k : kvCacheKey) :
    entry (appendCache c cc) k = (entry cc k).or (entry c k) := by
  unfold entry GoMap.getIn
  rw [get_appendCache]
  cases hcc : cc.cache.get k.key1 with
  | none => simp
  | some ns =>
    cases hc : c.cache.get k.key1 with
    | none => simp [GoMap.get_copy]
    | some dst => simp [GoMap.get_copy]

/-- Merging a cache into itself changes nothing. -/
theorem appendCache_self (c : kvCache) : appendCache c c = c := by
  have h : (appendCache c c).cache = c.cache := by
    apply GoMap.ext
    intro b
    rw [get_appendCache]
    cases hc : c.cache.get b with
    | none => rfl
    | some ns =>
      have : GoMap.copy ns ns = ns := by
        apply GoMap.ext
        intro i
        rw [GoMap.get_copy]
        cases ns.get i <;> rfl
      simp [this]
  cases c with
  | mk m => exact congrArg kvCache.mk h

/-- With only `*kvCache` arguments `Append` returns nil. -/
theorem Append_ok (args : List KVStoreCache) (h : ∀ a ∈ args, a.isKvCache = true)
    (c : kvCache) : (Append c args).1 = none := by
  induction args generalizing c with
  | nil => rfl
  | cons a rest ih =>
    have hrest : ∀ x ∈ rest, x.isKvCache = true := fun x hx => h x (List.mem_cons_of_mem a hx)
    cases a with
    | self => exact ih hrest _
    | kv cc => exact ih hrest _
    | foreign => exact absurd (h KVStoreCache.foreign (List.mem_cons_self _ _)) (by decide)

/-- The arguments after a run of `*kvCache` arguments are merged into the state that
run leaves. -/
theorem Append_app (pre post : List KVStoreCache) (h : ∀ a ∈ pre, a.isKvCache = true)
    (c : kvCache) : Append c (pre ++ post) = Append (Append c pre).2 post := by
  induction pre generalizing c with
  | nil => rfl
  | cons a rest ih =>
    have hrest : ∀ x ∈ rest, x.isKvCache = true := fun x hx => h x (List.mem_cons_of_mem a hx)
    cases a with
    | self => exact ih hrest _
    | kv cc => exact ih hrest _
    | foreign => exact absurd (h KVStoreCache.foreign (List.mem_cons_self _ _)) (by decide)

/-- A key that no distinct source holds keeps the receiver's entry. -/
theorem entry_Append_untouched (args : List KVStoreCache) (k : kvCacheKey)
    (hk : ∀ t, KVStoreCache.kv t ∈ args → entry t k = none) (c : kvCache) :
    entry (Append c args).2 k = entry c k := by
  induction args generalizing c with
  | nil => rfl
  | cons a rest ih =>
    have hrest : ∀ t, KVStoreCache.kv t ∈ rest → entry t k = none :=
      fun t ht => hk t (List.mem_cons_of_mem a ht)
    cases a with
    | self =>
      show entry (Append (appendCache c c) rest).2 k = entry c k
      rw [ih hrest, appendCache_self]
    | kv cc =>
      show entry (Append (appendCache c cc) rest).2 k = entry c k
      rw [ih hrest, entry_appendCache, hk cc (List.mem_cons_self _ _)]
      rfl
    | foreign => rfl

/-- C6. Append is last-writer-wins. For a receiver state `A`, arguments that are all
`*kvCache` values and a key `k`: the entry of `A` for `k` after `A.Append(args...)`,
and so the result of `Read(k)`, is the entry of the last source in the list that
holds an entry for `k`, and is the entry `A` held before the call when no source
holds one. (The receiver passed as its own source adds nothing: it is merged into
itself.) -/
theorem Append_last_writer_wins (A : kvCache) (args : List KVStoreCache) (k : kvCacheKey)
    (hkv : ∀ a ∈ args, a.isKvCache = true) :
    (∀ pre s post, args = pre ++ KVStoreCache.kv s :: post → entry s k ≠ none →
        (∀ t, KVStoreCache.kv t ∈ post → entry t k = none) →
        entry (Append A args).2 k = entry s k ∧
        (Read (Append A args).2 k).1 = (Read s k).1) ∧
    ((∀ t, KVStoreCache.kv t ∈ args → entry t k = none) →
        entry (Append A args).2 k = entry A k ∧
        (Read (Append A args).2 k).1 = (Read A k).1) := by
  constructor
  · intro pre s post hargs hs hpost
    have hpre : ∀ a ∈ pre, a.isKvCache = true := by
      intro a ha
      apply hkv
      rw [hargs]
      exact List.mem_append_left _ ha
    have he : entry (Append A args).2 k = entry s k := by
      rw [hargs, Append_app pre _ hpre]
      show entry (Append (appendCache (Append A pre).2 s) post).2 k = entry s k
      rw [entry_Append_untouched post k hpost, entry_appendCache]
      cases h : entry s k with
      | none => exact absurd h hs
      | some n => rfl
    exact ⟨he, Read_congr he⟩
  · intro hnone
    have he := entry_Append_untouched args k hnone A
    exact ⟨he, Read_congr he⟩

/-- The receiver holds `k = "x"`, the sources `B` and `C` hold `k = "y"` and
`k = "z"`: after `A.Append(B, C)`, `Read(k)` returns `"z"`. -/
theorem Append_last_writer_wins_witness :
    (Read (Append (Write NewKVCache ⟨"b", "k"⟩ (some [120]))
        [KVStoreCache.kv (Write NewKVCache ⟨"b", "k"⟩ (some [121])),
         KVStoreCache.kv (Write NewKVCache ⟨"b", "k"⟩ (some [122]))]).2 ⟨"b", "k"⟩).1
      = (some [122], none) :=
  ((Append_last_writer_wins (Write NewKVCache ⟨"b", "k"⟩ (some [120]))
      [KVStoreCache.kv (Write NewKVCache ⟨"b", "k"⟩ (some [121])),
       KVStoreCache.kv (Write NewKVCache ⟨"b", "k"⟩ (some [122]))] ⟨"b", "k"⟩
      (by
        intro a ha
        simp only [List.mem_cons, List.mem_singleton, List.not_mem_nil, or_false] at ha
        rcases ha with rfl | rfl <;> rfl)).1
    [KVStoreCache.kv (Write NewKVCache ⟨"b", "k"⟩ (some [121]))]
    (Write NewKVCache ⟨"b", "k"⟩ (some [122])) [] rfl (by decide)
    (by intro t ht; cases ht)).2.trans (by decide)

/-- C7. `Append` returns `ErrUnexpectedType` if and only if at least one argument is
not a `*kvCache`, and returns nil otherwise, also for the empty argument list. -/
theorem Append_error_iff (c : kvCache) (args : List KVStoreCache) :
    ((Append c args).1 = some Error.ErrUnexpectedType ↔
      ∃ a ∈ args, a.isKvCache = false) ∧
    ((Append c args).1 = none ↔ ∀ a ∈ args, a.isKvCache = true) ∧
    (Append c []).1 = none := by
  have key : ∀ (l : List KVStoreCache) (d : kvCache),
      ((∀ a ∈ l, a.isKvCache = true) ∧ (Append d l).1 = none) ∨
      ((∃ a ∈ l, a.isKvCache = false) ∧ (Append d l).1 = some Error.ErrUnexpectedType) := by
    intro l
    induction l with
    | nil => intro d; exact Or.inl ⟨by simp, rfl⟩
    | cons a rest ih =>
      intro d
      cases a with
      | self =>
        rcases ih (appendCache d d) with ⟨h1, h2⟩ | ⟨⟨x, hx, hx2⟩, h2⟩
        · refine Or.inl ⟨?_, h2⟩
          intro y hy
          rcases List.mem_cons.1 hy with rfl | hy
          · rfl
          · exact h1 y hy
        · exact Or.inr ⟨⟨x, List.mem_cons_of_mem _ hx, hx2⟩, h2⟩
      | kv cc =>
        rcases ih (appendCache d cc) with ⟨h1, h2⟩ | ⟨⟨x, hx, hx2⟩, h2⟩
        · refine Or.inl ⟨?_, h2⟩
          intro y hy
          rcases List.mem_cons.1 hy with rfl | hy
          · rfl
          · exact h1 y hy
        · exact Or.inr ⟨⟨x, List.mem_cons_of_mem _ hx, hx2⟩, h2⟩
      | foreign =>
        exact Or.inr ⟨⟨KVStoreCache.foreign, List.mem_cons_self _ _, rfl⟩, rfl⟩
  refine ⟨?_, ?_, rfl⟩
  · rcases key args c with ⟨h1, h2⟩ | ⟨h1, h2⟩
    · rw [h2]
      constructor
      · intro h; cases h
      · rintro ⟨a, ha, hf⟩
        rw [h1 a ha] at hf
        cases hf
    · rw [h2]
      exact ⟨fun _ => h1, fun _ => rfl⟩
  · rcases key args c with ⟨h1, h2⟩ | ⟨⟨a, ha, hf⟩, h2⟩
    · rw [h2]
      exact ⟨fun _ => h1, fun _ => rfl⟩
    · rw [h2]
      constructor
      · intro h; cases h
      · intro h
        rw [h a ha] at hf
        cases hf

/-- C8. When the argument list holds a foreign argument, the failed `Append` leaves
the receiver in exactly the state a successful `Append` of the sources in front of
the first foreign argument produces: a key held by none of those sources keeps its
entry and its `Read` result, and the arguments after the foreign one have no effect. -/
theorem Append_foreign_stops (A : kvCache) (pre post : List KVStoreCache)
    (hpre : ∀ a ∈ pre, a.isKvCache = true) :
    (Append A (pre ++ KVStoreCache.foreign :: post)).1 = some Error.ErrUnexpectedType ∧
    (Append A pre).1 = none ∧
    (Append A (pre ++ KVStoreCache.foreign :: post)).2 = (Append A pre).2 ∧
    (∀ k, (∀ t, KVStoreCache.kv t ∈ pre → entry t k = none) →
      entry (Append A (pre ++ KVStoreCache.foreign :: post)).2 k = entry A k ∧
      (Read (Append A (pre ++ KVStoreCache.foreign :: post)).2 k).1 = (Read A k).1) ∧
    (∀ post2, (Append A (pre ++ KVStoreCache.foreign :: post2)).2
      = (Append A (pre ++ KVStoreCache.foreign :: post)).2) := by
  have hstop : ∀ l, Append A (pre ++ KVStoreCache.foreign :: l)
      = (some Error.ErrUnexpectedType, (Append A pre).2) := by
    intro l
    rw [Append_app pre _ hpre]
    rfl
  refine ⟨by rw [hstop], Append_ok pre hpre A, by rw [hstop], ?_, ?_⟩
  · intro k hk
    have he : entry (Append A (pre ++ KVStoreCache.foreign :: post)).2 k = entry A k := by
      rw [hstop]
      exact entry_Append_untouched pre k hk A
    exact ⟨he, Read_congr he⟩
  · intro post2
    rw [hstop, hstop]

/-- The receiver holds `("b", "k")`, the first source holds `("b", "j")`, then comes a
foreign argument and a source that holds `("b", "k")`: the call fails and `("b", "k")`
keeps the receiver's payload. -/
theorem Append_foreign_stops_witness :
    (Append (Write NewKVCache ⟨"b", "k"⟩ (some [120]))
        ([KVStoreCache.kv (Write NewKVCache ⟨"b", "j"⟩ (some [121]))] ++
          KVStoreCache.foreign ::
            [KVStoreCache.kv (Write NewKVCache ⟨"b", "k"⟩ (some [122]))])).1
        = some Error.ErrUnexpectedType ∧
    (Read (Append (Write NewKVCache ⟨"b", "k"⟩ (some [120]))
        ([KVStoreCache.kv (Write NewKVCache ⟨"b", "j"⟩ (some [121]))] ++
          KVStoreCache.foreign ::
            [KVStoreCache.kv (Write NewKVCache ⟨"b", "k"⟩ (some [122]))])).2 ⟨"b", "k"⟩).1
        = (some [120], none) :=
  have h := Append_foreign_stops (Write NewKVCache ⟨"b", "k"⟩ (some [120]))
      [KVStoreCache.kv (Write NewKVCache ⟨"b", "j"⟩ (some [121]))]
      [KVStoreCache.kv (Write NewKVCache ⟨"b", "k"⟩ (some [122]))]
      (by intro a ha; rw [List.mem_singleton.1 ha]; rfl)
  ⟨h.1,
   ((h.2.2.2.1 ⟨"b", "k"⟩ (by
      intro t ht
      rw [KVStoreCache.kv.inj (List.mem_singleton.1 ht)]
      decide)).2).trans (by decide)⟩

/-- C9. After `Clear()` the cache state is the state of a cache fresh from
`NewKVCache`, so `Read(k)` returns `ErrNotExist` for every key, also for keys that
were written or evicted before. -/
theorem Clear_resets (c : kvCache) :
    Clear c = NewKVCache ∧
    (∀ k, (Read (Clear c) k).1 = (none, some Error.ErrNotExist)) ∧
    (∀ k v, (Read (Clear (Write c k v)) k).1 = (none, some Error.ErrNotExist)) ∧
    (∀ k, (Read (Clear (Evict c k)) k).1 = (none, some Error.ErrNotExist)) :=
  ⟨rfl, fun _ => rfl, fun _ _ => rfl, fun _ => rfl⟩

/-- C10. `Read(k)` leaves the cache state unchanged, whether it succeeds or fails,
and a `Read` on an unknown bucket does not create that bucket. -/
theorem Read_no_side_effect (c : kvCache) (k : kvCacheKey) :
    (Read c k).2 = c ∧
    (c.cache.get k.key1 = none → (Read c k).2.cache.get k.key1 = none) := by
  have h : (Read c k).2 = c := by
    unfold Read
    cases c.cache.get k.key1 with
    | none => rfl
    | some ns =>
      dsimp only
      cases ns.get k.key2 with
      | none => rfl
      | some n => cases hd : n.deleted <;> simp [hd]
  exact ⟨h, fun hb => by rw [h]; exact hb⟩

/-- A `Read` on an unknown bucket of a non-empty cache leaves that bucket unknown. -/
theorem Read_no_side_effect_witness :
    (Read (Write NewKVCache ⟨"b", "i"⟩ (some [1])) ⟨"x", "i"⟩).1
        = (none, some Error.ErrNotExist) ∧
    (Read (Write NewKVCache ⟨"b", "i"⟩ (some [1])) ⟨"x", "i"⟩).2.cache.get "x" = none :=
  ⟨by decide,
    (Read_no_side_effect (Write NewKVCache ⟨"b", "i"⟩ (some [1])) ⟨"x", "i"⟩).2 rfl⟩

/-! ## State equality, idempotence and the key-local frame -/

/-- Two cache states with the same buckets and the same entries are equal. -/
theorem kvCache_ext {c d : kvCache}
    (hb : ∀ b, (c.cache.get b).isSome = (d.cache.get b).isSome)
    (he : ∀ k, entry c k = entry d k) : c = d := by
  have h : c.cache = d.cache := by
    apply GoMap.ext
    intro b
    have hb1 := hb b
    cases hc : c.cache.get b with
    | none =>
      cases hd : d.cache.get b with
      | none => rfl
      | some ms => simp [hc, hd] at hb1
    | some ns =>
      cases hd : d.cache.get b with
      | none => simp [hc, hd] at hb1
      | some ms =>
        have : ns = ms := by
          apply GoMap.ext
          intro i
          have hk := he ⟨b, i⟩
          simpa [entry, GoMap.getIn, hc, hd] using hk
        rw [this]
  cases c with
  | mk m =>
    cases d with
    | mk m2 => exact congrArg kvCache.mk h

/-- The buckets after a guarded nested assignment: the old ones and `k1`. -/
theorem isSome_guarded_setIn {V : Type} (m : GoMap (GoMap V)) (k1 k2 b : String) (v : V) :
    ((GoMap.setIn (if (m.get k1).isNone then m.set k1 GoMap.make else m) k1 k2 v).get b).isSome
      = (decide (b = k1) || (m.get b).isSome) := by
  unfold GoMap.setIn
  cases h : m.get k1 with
  | none =>
    by_cases hb : b = k1
    · subst hb
      simp [GoMap.get_set]
    · simp [GoMap.get_set, hb]
  | some ns =>
    by_cases hb : b = k1
    · subst hb
      simp [h, GoMap.get_set]
    · simp [h, GoMap.get_set, hb]

theorem isSome_Write (c : kvCache) (k : kvCacheKey) (v : Bytes) (b : String) :
    ((Write c k v).cache.get b).isSome = (decide (b = k.key1) || (c.cache.get b).isSome) := by
  unfold Write
  cases h : c.cache.get k.key1 <;>
    simpa [h] using isSome_guarded_setIn c.cache k.key1 k.key2 b _

theorem isSome_Evict (c : kvCache) (k : kvCacheKey) (b : String) :
    ((Evict c k).cache.get b).isSome = (decide (b = k.key1) || (c.cache.get b).isSome) := by
  unfold Evict
  cases h : c.cache.get k.key1 <;>
    simpa [h] using isSome_guarded_setIn c.cache k.key1 k.key2 b _

/-- The state `WriteIfNotExist` leaves is the state of `Write` or the state it was
given. -/
theorem WriteIfNotExist_state (c : kvCache) (k : kvCacheKey) (v : Bytes) :
    ((WriteIfNotExist c k v).1 = none ∧ (WriteIfNotExist c k v).2 = Write c k v) ∨
    ((WriteIfNotExist c k v).1 = some Error.ErrAlreadyExist ∧ (WriteIfNotExist c k v).2 = c ∧
      ∃ n, entry c k = some n ∧ n.deleted = false) := by
  rw [WriteIfNotExist_eq]
  cases he : entry c k with
  | none => exact Or.inl ⟨rfl, rfl⟩
  | some n =>
    cases hd : n.deleted with
    | true => exact Or.inl ⟨by simp [hd], by simp [hd]⟩
    | false => exact Or.inr ⟨by simp [hd], by simp [hd], n, rfl, hd⟩

/-- C11. `Write` is idempotent: `Write(k, v)` twice in a row leaves the state of
`Write(k, v)` once, and `Write(k, v1)` followed by `Write(k, v2)` leaves the state of
`Write(k, v2)` alone. -/
theorem Write_idempotent (c : kvCache) (k : kvCacheKey) (v v1 v2 : Bytes) :
    Write (Write c k v) k v = Write c k v ∧
    Write (Write c k v1) k v2 = Write c k v2 := by
  have key : ∀ w1 w2 : Bytes, Write (Write c k w1) k w2 = Write c k w2 := by
    intro w1 w2
    apply kvCache_ext
    · intro b
      simp only [isSome_Write]
      cases decide (b = k.key1) <;> simp
    · intro j
      simp only [entry_Write]
      split <;> rfl
  exact ⟨key v v, key v1 v2⟩

/-- C18. `Write(k, v)`, `WriteIfNotExist(k, v)` and `Evict(k)` leave the entry, and so
the `Read` result, of every key that differs from `k` in the bucket or in the item
unchanged. -/
theorem key_local_frame (c : kvCache) (k j : kvCacheKey) (v : Bytes)
    (h : j.key1 ≠ k.key1 ∨ j.key2 ≠ k.key2) :
    (entry (Write c k v) j = entry c j ∧ (Read (Write c k v) j).1 = (Read c j).1) ∧
    (entry (WriteIfNotExist c k v).2 j = entry c j ∧
      (Read (WriteIfNotExist c k v).2 j).1 = (Read c j).1) ∧
    (entry (Evict c k) j = entry c j ∧ (Read (Evict c k) j).1 = (Read c j).1) := by
  have hne : ¬ (j.key1 = k.key1 ∧ j.key2 = k.key2) := by
    rintro ⟨h1, h2⟩
    rcases h with h | h
    · exact h h1
    · exact h h2
  have hw : entry (Write c k v) j = entry c j := by
    rw [entry_Write, if_neg hne]
  have he : entry (Evict c k) j = entry c j := by
    rw [entry_Evict, if_neg hne]
  have hi : entry (WriteIfNotExist c k v).2 j = entry c j := by
    rcases WriteIfNotExist_state c k v with ⟨_, h2⟩ | ⟨_, h2, _⟩
    · rw [h2, hw]
    · rw [h2]
  exact ⟨⟨hw, Read_congr hw⟩, ⟨hi, Read_congr hi⟩, ⟨he, Read_congr he⟩⟩

/-- The same item in another bucket and another item in the same bucket keep their
payloads through an `Evict`. -/
theorem key_local_frame_witness :
    (Read (Evict (Write (Write NewKVCache ⟨"a", "i"⟩ (some [1])) ⟨"b", "j"⟩ (some [2]))
        ⟨"b", "i"⟩) ⟨"a", "i"⟩).1 = (some [1], none) ∧
    (Read (Evict (Write (Write NewKVCache ⟨"a", "i"⟩ (some [1])) ⟨"b", "j"⟩ (some [2]))
        ⟨"b", "i"⟩) ⟨"b", "j"⟩).1 = (some [2], none) :=
  ⟨((key_local_frame (Write (Write NewKVCache ⟨"a", "i"⟩ (some [1])) ⟨"b", "j"⟩ (some [2]))
      ⟨"b", "i"⟩ ⟨"a", "i"⟩ none (Or.inl (by decide))).2.2.2).trans (by decide),
   ((key_local_frame (Write (Write NewKVCache ⟨"a", "i"⟩ (some [1])) ⟨"b", "j"⟩ (some [2]))
      ⟨"b", "i"⟩ ⟨"b", "j"⟩ none (Or.inr (by decide))).2.2.2).trans (by decide)⟩

/-- C16. `Append` composes sequentially: with `*kvCache` sources, `A.Append(Xs ++ Ys)`
returns what `A.Append(Xs)` followed by `A.Append(Ys)` returns and leaves the same
receiver state; `Append` with no argument leaves the receiver state unchanged. -/
theorem Append_composes (A : kvCache) (Xs Ys : List KVStoreCache)
    (hX : ∀ a ∈ Xs, a.isKvCache = true) :
    (Append A Xs).1 = none ∧
    Append A (Xs ++ Ys) = Append (Append A Xs).2 Ys ∧
    (Append A []).2 = A :=
  ⟨Append_ok Xs hX A, Append_app Xs Ys hX A, rfl⟩

/-- Two sources appended in one call and in two calls give the same `Read`. -/
theorem Append_composes_witness :
    (Read (Append NewKVCache
        ([KVStoreCache.kv (Write NewKVCache ⟨"b", "k"⟩ (some [1]))] ++
          [KVStoreCache.kv (Evict NewKVCache ⟨"b", "k"⟩)])).2 ⟨"b", "k"⟩).1
      = (Read (Append (Append NewKVCache
          [KVStoreCache.kv (Write NewKVCache ⟨"b", "k"⟩ (some [1]))]).2
          [KVStoreCache.kv (Evict NewKVCache ⟨"b", "k"⟩)]).2 ⟨"b", "k"⟩).1 :=
  congrArg (fun r => (Read r.2 ⟨"b", "k"⟩).1)
    (Append_composes NewKVCache
      [KVStoreCache.kv (Write NewKVCache ⟨"b", "k"⟩ (some [1]))]
      [KVStoreCache.kv (Evict NewKVCache ⟨"b", "k"⟩)]
      (by intro a ha; rw [List.mem_singleton.1 ha]; rfl)).2.1

/-! ## The integer marker list -/

/-- C14, as the claim states it, fails on the empty list: the index expression
`(*kv)[0]` of `reset` is out of range and `reset` does not complete. -/
theorem reset_empty_does_not_complete :
    kvCacheValue.reset (newkvCacheValue []) = none ∧
    ¬ ∃ r, kvCacheValue.reset (newkvCacheValue []) = some r ∧ r = [0] := by
  constructor
  · rfl
  · rintro ⟨r, hr, _⟩
    cases hr

/-- C14, amended. For every integer marker list that holds at least one element,
`reset` completes and leaves exactly the list `[0]`, of length 1. -/
theorem reset_nonempty (v : List Int) (h : v ≠ []) :
    kvCacheValue.reset (newkvCacheValue v) = some [0] ∧
    ∀ r, kvCacheValue.reset (newkvCacheValue v) = some r →
      kvCacheValue.get r = [0] ∧ kvCacheValue.len r = 1 := by
  have hr : kvCacheValue.reset (newkvCacheValue v) = some [0] := by
    cases v with
    | nil => exact absurd rfl h
    | cons x rest => simp [kvCacheValue.reset, newkvCacheValue]
  refine ⟨hr, ?_⟩
  intro r hr2
  rw [hr] at hr2
  cases hr2
  exact ⟨rfl, rfl⟩

/-- The list `[1, 3, 5]` is reset to `[0]`. -/
theorem reset_nonempty_witness :
    kvCacheValue.reset (newkvCacheValue [1, 3, 5]) = some [0] :=
  (reset_nonempty [1, 3, 5] (by decide)).1

/-- C15. For every integer marker list `l` and integer `v`: after `append(v)`, `len()`
is `len(l) + 1`, `last()` and `getAt(len() - 1)` return `v`, `getAt(i)` is unchanged
for every `i < len(l)`, and a following `pop()` restores `get()` to `l`. -/
theorem append_then_access (l : kvCacheValue) (v : Int) :
    kvCacheValue.len (kvCacheValue.append l v) = kvCacheValue.len l + 1 ∧
    kvCacheValue.last (kvCacheValue.append l v) = some v ∧
    kvCacheValue.getAt (kvCacheValue.append l v)
      (kvCacheValue.len (kvCacheValue.append l v) - 1) = some v ∧
    (∀ i : Int, i < kvCacheValue.len l →
      kvCacheValue.getAt (kvCacheValue.append l v) i = kvCacheValue.getAt l i) ∧
    (∀ i : Int, 0 ≤ i → i < kvCacheValue.len l →
      ∃ x, kvCacheValue.getAt l i = some x) ∧
    (kvCacheValue.pop (kvCacheValue.append l v)).map kvCacheValue.get
      = some (kvCacheValue.get l) := by
  have hlen : kvCacheValue.len (kvCacheValue.append l v) = kvCacheValue.len l + 1 := by
    simp [kvCacheValue.len, kvCacheValue.append]
  have hnn : (0 : Int) ≤ kvCacheValue.len l := by
    simp [kvCacheValue.len]
  have hidx : (kvCacheValue.len l + 1 - 1).toNat = List.length l := by
    simp [kvCacheValue.len]
  have hlast : kvCacheValue.getAt (kvCacheValue.append l v)
      (kvCacheValue.len (kvCacheValue.append l v) - 1) = some v := by
    unfold kvCacheValue.getAt
    rw [hlen, hidx, if_pos ⟨by omega, by omega⟩]
    simp [kvCacheValue.append]
  refine ⟨hlen, ?_, hlast, ?_, ?_, ?_⟩
  · unfold kvCacheValue.last
    rw [hlen, hidx, if_pos ⟨by omega, by omega⟩]
    simp [kvCacheValue.append]
  · intro i hi
    unfold kvCacheValue.getAt
    rw [hlen]
    by_cases h0 : 0 ≤ i
    · rw [if_pos ⟨h0, by omega⟩, if_pos ⟨h0, hi⟩]
      have hlt : i.toNat < List.length l := by
        have : i < (List.length l : Int) := by simpa [kvCacheValue.len] using hi
        omega
      simp [kvCacheValue.append, List.getElem?_append_left hlt]
    · rw [if_neg (fun h => h0 h.1), if_neg (fun h => h0 h.1)]
  · intro i h0 hi
    unfold kvCacheValue.getAt
    rw [if_pos ⟨h0, hi⟩]
    have hlt : i.toNat < List.length l := by
      have : i < (List.length l : Int) := by simpa [kvCacheValue.len] using hi
      omega
    exact ⟨l[i.toNat], by simp [hlt]⟩
  · unfold kvCacheValue.pop
    rw [hlen, hidx, if_pos (by omega)]
    simp [kvCacheValue.append, kvCacheValue.get]

/-- The list `[1, 3]` with `5` appended: the old elements stay and `pop` undoes it. -/
theorem append_then_access_witness :
    kvCacheValue.getAt (kvCacheValue.append [1, 3] 5) 1 = some 3 ∧
    (∃ x, kvCacheValue.getAt [1, 3] 1 = some x) :=
  ⟨((append_then_access [1, 3] 5).2.2.2.1 1 (by decide)).trans (by decide),
   (append_then_access [1, 3] 5).2.2.2.2.1 1 (by decide) (by decide)⟩

/-! ## Invariants of the reachable states -/

/-- `Read` hands back the state it was given. -/
theorem Read_state (c : kvCache) (k : kvCacheKey) : (Read c k).2 = c := by
  unfold Read
  cases c.cache.get k.key1 with
  | none => rfl
  | some ns =>
    dsimp only
    cases ns.get k.key2 with
    | none => rfl
    | some n => cases hd : n.deleted <;> simp [hd]

theorem entry_Clear (c : kvCache) (k : kvCacheKey) : entry (Clear c) k = none := rfl

theorem entry_NewKVCache (k : kvCacheKey) : entry NewKVCache k = none := rfl

/-- A held entry lives in a present bucket. -/
theorem isSome_bucket_of_entry {c : kvCache} {k : kvCacheKey}
    (h : (entry c k).isSome = true) : (c.cache.get k.key1).isSome = true := by
  unfold entry GoMap.getIn at h
  cases hc : c.cache.get k.key1 with
  | none => simp [hc] at h
  | some ns => rfl

theorem isSome_appendCache (c cc : kvCache) (b : String) :
    ((appendCache c cc).cache.get b).isSome
      = ((c.cache.get b).isSome || (cc.cache.get b).isSome) := by
  rw [get_appendCache]
  cases cc.cache.get b with
  | none => simp
  | some ns => simp

/-- A property of cache states that merging one source keeps is kept by `Append`,
whatever the argument list (a foreign argument only cuts the merge short). -/
theorem Append_keeps (P : kvCache → Prop)
    (hstep : ∀ c s, P c → P s → P (appendCache c s))
    (args : List KVStoreCache) (hs : ∀ s, KVStoreCache.kv s ∈ args → P s)
    (c : kvCache) (hc : P c) : P (Append c args).2 := by
  induction args generalizing c with
  | nil => exact hc
  | cons a rest ih =>
    have hrest : ∀ s, KVStoreCache.kv s ∈ rest → P s :=
      fun s h => hs s (List.mem_cons_of_mem a h)
    cases a with
    | self => exact ih hrest _ (hstep c c hc hc)
    | kv cc => exact ih hrest _ (hstep c cc hc (hs cc (List.mem_cons_self _ _)))
    | foreign => exact hc

theorem tombstonesCleared_of_reachable {c : kvCache} (h : Reachable c) :
    TombstonesCleared c := by
  induction h with
  | new => intro k n hn; simp [entry_NewKVCache] at hn
  | read c k _ ih => rw [Read_state]; exact ih
  | write c k v _ ih =>
    intro j n hn hd
    rw [entry_Write] at hn
    split at hn
    · cases hn
      cases hd
    · exact ih j n hn hd
  | writeIfNotExist c k v _ ih =>
    rcases WriteIfNotExist_state c k v with ⟨_, h2⟩ | ⟨_, h2, _⟩
    · rw [h2]
      intro j n hn hd
      rw [entry_Write] at hn
      split at hn
      · cases hn
        cases hd
      · exact ih j n hn hd
    · rw [h2]; exact ih
  | evict c k _ ih =>
    intro j n hn hd
    rw [entry_Evict] at hn
    split at hn
    · cases hn
      rfl
    · exact ih j n hn hd
  | clear c _ _ => intro k n hn; simp [entry_Clear] at hn
  | append c args _ _ ihc ihs =>
    refine Append_keeps TombstonesCleared ?_ args ihs c ihc
    intro c s hc hs k n hn hd
    rw [entry_appendCache] at hn
    cases hsk : entry s k with
    | none =>
      rw [hsk] at hn
      exact hc k n hn hd
    | some m =>
      rw [hsk] at hn
      cases hn
      exact hs k _ hsk hd

theorem noEmptyBucket_of_guarded_store (c d : kvCache) (k : kvCacheKey)
    (hb : ∀ b, (d.cache.get b).isSome = (decide (b = k.key1) || (c.cache.get b).isSome))
    (hk : (entry d k).isSome = true)
    (he : ∀ j, (entry c j).isSome = true → (entry d j).isSome = true)
    (hc : NoEmptyBucket c) : NoEmptyBucket d := by
  intro b hbd
  rw [hb] at hbd
  by_cases hbk : b = k.key1
  · subst hbk
    cases hek : entry d k with
    | none => simp [hek] at hk
    | some n => exact ⟨k.key2, n, hek⟩
  · have hcb : (c.cache.get b).isSome = true := by simpa [hbk] using hbd
    obtain ⟨i, n, hn⟩ := hc b hcb
    have := he ⟨b, i⟩ (by simp [hn])
    cases hd : entry d ⟨b, i⟩ with
    | none => simp [hd] at this
    | some m => exact ⟨i, m, hd⟩

theorem noEmptyBucket_Write (c : kvCache) (k : kvCacheKey) (v : Bytes)
    (hc : NoEmptyBucket c) : NoEmptyBucket (Write c k v) := by
  refine noEmptyBucket_of_guarded_store c _ k (isSome_Write c k v) ?_ ?_ hc
  · simp [entry_Write]
  · intro j hj
    rw [entry_Write]
    split
    · rfl
    · exact hj

theorem noEmptyBucket_Evict (c : kvCache) (k : kvCacheKey)
    (hc : NoEmptyBucket c) : NoEmptyBucket (Evict c k) := by
  refine noEmptyBucket_of_guarded_store c _ k (isSome_Evict c k) ?_ ?_ hc
  · simp [entry_Evict]
  · intro j hj
    rw [entry_Evict]
    split
    · rfl
    · exact hj

theorem noEmptyBucket_appendCache (c s : kvCache)
    (hc : NoEmptyBucket c) (hs : NoEmptyBucket s) : NoEmptyBucket (appendCache c s) := by
  intro b hb
  rw [isSome_appendCache] at hb
  cases hsb : (s.cache.get b).isSome with
  | true =>
    obtain ⟨i, n, hn⟩ := hs b hsb
    exact ⟨i, n, by rw [entry_appendCache, hn]; rfl⟩
  | false =>
    have hcb : (c.cache.get b).isSome = true := by simpa [hsb] using hb
    obtain ⟨i, n, hn⟩ := hc b hcb
    cases hsi : entry s ⟨b, i⟩ with
    | none => exact ⟨i, n, by rw [entry_appendCache, hsi, hn]; rfl⟩
    | some m => exact ⟨i, m, by rw [entry_appendCache, hsi]; rfl⟩

theorem noEmptyBucket_of_reachable {c : kvCache} (h : Reachable c) : NoEmptyBucket c := by
  induction h with
  | new => intro b hb; simp [NewKVCache] at hb
  | read c k _ ih => rw [Read_state]; exact ih
  | write c k v _ ih => exact noEmptyBucket_Write c k v ih
  | writeIfNotExist c k v _ ih =>
    rcases WriteIfNotExist_state c k v with ⟨_, h2⟩ | ⟨_, h2, _⟩
    · rw [h2]; exact noEmptyBucket_Write c k v ih
    · rw [h2]; exact ih
  | evict c k _ ih => exact noEmptyBucket_Evict c k ih
  | clear c _ _ => intro b hb; simp [Clear] at hb
  | append c args _ _ ihc ihs =>
    exact Append_keeps NoEmptyBucket noEmptyBucket_appendCache args ihs c ihc

/-- C12. In every reachable cache state every entry whose deleted flag is true has
the nil payload, and the entry `Write` or a successful `WriteIfNotExist` creates is
live (`deleted = false`) and holds the payload. -/
theorem tombstone_invariant :
    (∀ c, Reachable c → ∀ k n, entry c k = some n → n.deleted = true → n.value = none) ∧
    (∀ c k v, entry (Write c k v) k = some { value := v, deleted := false }) ∧
    (∀ c k v, (WriteIfNotExist c k v).1 = none →
      entry (WriteIfNotExist c k v).2 k = some { value := v, deleted := false }) := by
  refine ⟨fun c hc => tombstonesCleared_of_reachable hc, ?_, ?_⟩
  · intro c k v
    simp [entry_Write]
  · intro c k v h
    rcases WriteIfNotExist_state c k v with ⟨_, h2⟩ | ⟨h1, _, _⟩
    · rw [h2]
      simp [entry_Write]
    · rw [h1] at h
      cases h

/-- A written key that is evicted, in a cache that received an `Append`: the entry is
a tombstone with the nil payload. -/
theorem tombstone_invariant_witness :
    entry (Evict (Append (Write NewKVCache ⟨"b", "i"⟩ (some [1]))
        [KVStoreCache.kv (Write NewKVCache ⟨"b", "j"⟩ (some [2]))]).2 ⟨"b", "i"⟩) ⟨"b", "i"⟩
      = some { value := none, deleted := true } ∧
    (({ value := none, deleted := true } : node).value = none) :=
  ⟨by decide,
   tombstone_invariant.1
    (Evict (Append (Write NewKVCache ⟨"b", "i"⟩ (some [1]))
        [KVStoreCache.kv (Write NewKVCache ⟨"b", "j"⟩ (some [2]))]).2 ⟨"b", "i"⟩)
    (Reachable.evict _ _ (Reachable.append _ _ (Reachable.write _ _ _ Reachable.new)
      (by
        intro s hs
        rw [KVStoreCache.kv.inj (List.mem_singleton.1 hs)]
        exact Reachable.write _ _ _ Reachable.new)))
    ⟨"b", "i"⟩ { value := none, deleted := true } (by decide) rfl⟩

/-- C20. In every reachable cache state every bucket of the outer map has an inner
map with at least one item entry, live or tombstone. -/
theorem no_empty_buckets (c : kvCache) (h : Reachable c) (b : String)
    (hb : (c.cache.get b).isSome = true) :
    ∃ ns, c.cache.get b = some ns ∧ ∃ i n, ns.get i = some n := by
  obtain ⟨i, n, hn⟩ := noEmptyBucket_of_reachable h b hb
  cases hc : c.cache.get b with
  | none => simp [hc] at hb
  | some ns =>
    refine ⟨ns, rfl, i, n, ?_⟩
    simpa [entry, GoMap.getIn, hc] using hn

/-- The bucket of a key on which `WriteIfNotExist` failed holds an item. -/
theorem no_empty_buckets_witness :
    ∃ ns, (WriteIfNotExist (Write NewKVCache ⟨"b", "i"⟩ (some [1])) ⟨"b", "i"⟩
        (some [2])).2.cache.get "b" = some ns ∧ ∃ i n, ns.get i = some n :=
  no_empty_buckets
    (WriteIfNotExist (Write NewKVCache ⟨"b", "i"⟩ (some [1])) ⟨"b", "i"⟩ (some [2])).2
    (Reachable.writeIfNotExist _ _ _ (Reachable.write _ _ _ Reachable.new)) "b" (by decide)

/-- `Append` keeps the buckets the receiver has. -/
theorem isSome_Append_of_isSome (args : List KVStoreCache) (b : String) (c : kvCache)
    (h : (c.cache.get b).isSome = true) : ((Append c args).2.cache.get b).isSome = true := by
  induction args generalizing c with
  | nil => exact h
  | cons a rest ih =>
    cases a with
    | self => exact ih _ (by rw [isSome_appendCache, h]; rfl)
    | kv cc => exact ih _ (by rw [isSome_appendCache, h]; rfl)
    | foreign => exact h

/-- Every call other than `Clear` keeps the buckets the cache has. -/
theorem isSome_apply_of_isSome (c : kvCache) (op : Op) (b : String)
    (h : (c.cache.get b).isSome = true) : ((op.apply c).cache.get b).isSome = true := by
  cases op with
  | read k =>
    show ((Read c k).2.cache.get b).isSome = true
    rw [Read_state]; exact h
  | write k v =>
    show ((Write c k v).cache.get b).isSome = true
    rw [isSome_Write, h]; simp
  | writeIfNotExist k v =>
    show ((WriteIfNotExist c k v).2.cache.get b).isSome = true
    rcases WriteIfNotExist_state c k v with ⟨_, h2⟩ | ⟨_, h2, _⟩
    · rw [h2, isSome_Write, h]; simp
    · rw [h2]; exact h
  | evict k =>
    show ((Evict c k).cache.get b).isSome = true
    rw [isSome_Evict, h]; simp
  | append args =>
    show ((Append c args).2.cache.get b).isSome = true
    exact isSome_Append_of_isSome args b c h

theorem isSome_WriteIfNotExist_self (c : kvCache) (k : kvCacheKey) (v : Bytes) :
    ((WriteIfNotExist c k v).2.cache.get k.key1).isSome = true := by
  rcases WriteIfNotExist_state c k v with ⟨_, h2⟩ | ⟨_, h2, n, hn, _⟩
  · rw [h2, isSome_Write]; simp
  · rw [h2]
    exact isSome_bucket_of_entry (by simp [hn])

/-- A sequence of calls without `Clear` keeps the buckets the cache has. -/
theorem isSome_run_of_isSome (ops : List Op) (b : String) (c : kvCache)
    (h : (c.cache.get b).isSome = true) : ((run c ops).cache.get b).isSome = true := by
  induction ops generalizing c with
  | nil => exact h
  | cons op rest ih => exact ih _ (isSome_apply_of_isSome c op b h)

/-- A `Write`, `WriteIfNotExist` or `Evict` makes the bucket of its key present. -/
theorem isSome_apply_of_touches (c : kvCache) (op : Op) (b : String)
    (h : op.touches b = true) : ((op.apply c).cache.get b).isSome = true := by
  cases op with
  | read k => cases h
  | write k v =>
    have hb : k.key1 = b := by simpa [Op.touches] using h
    subst hb
    show ((Write c k v).cache.get k.key1).isSome = true
    rw [isSome_Write]; simp
  | writeIfNotExist k v =>
    have hb : k.key1 = b := by simpa [Op.touches] using h
    subst hb
    exact isSome_WriteIfNotExist_self c k v
  | evict k =>
    have hb : k.key1 = b := by simpa [Op.touches] using h
    subst hb
    show ((Evict c k).cache.get k.key1).isSome = true
    rw [isSome_Evict]; simp
  | append args => cases h

/-- C13. Each of `Write`, `WriteIfNotExist` and `Evict` makes the bucket of its key
present; none of `Read`, `Write`, `WriteIfNotExist`, `Evict` and `Append` removes a
bucket; so after any sequence of these calls every bucket that was the bucket of a
key handed to `Write`, `WriteIfNotExist` or `Evict` in the sequence is in the outer map. -/
theorem bucket_presence :
    (∀ c k v, ((Write c k v).cache.get k.key1).isSome = true) ∧
    (∀ c k v, ((WriteIfNotExist c k v).2.cache.get k.key1).isSome = true) ∧
    (∀ c k, ((Evict c k).cache.get k.key1).isSome = true) ∧
    (∀ c (op : Op) b, (c.cache.get b).isSome = true →
      ((op.apply c).cache.get b).isSome = true) ∧
    (∀ c (ops : List Op) b, (∃ op ∈ ops, op.touches b = true) →
      ((run c ops).cache.get b).isSome = true) := by
  refine ⟨?_, isSome_WriteIfNotExist_self, ?_, isSome_apply_of_isSome, ?_⟩
  · intro c k v
    rw [isSome_Write]; simp
  · intro c k
    rw [isSome_Evict]; simp
  · intro c ops
    induction ops generalizing c with
    | nil =>
      rintro b ⟨op, hop, _⟩
      cases hop
    | cons op rest ih =>
      rintro b ⟨op2, hop2, ht⟩
      rcases List.mem_cons.1 hop2 with rfl | hrest
      · exact isSome_run_of_isSome rest b _ (isSome_apply_of_touches c op2 b ht)
      · exact ih (op.apply c) b ⟨op2, hrest, ht⟩

/-- The bucket `"a"` is evicted from first, then other calls follow, among them a
failing `WriteIfNotExist` and an `Append`: the bucket is still in the outer map. -/
theorem bucket_presence_witness :
    ((run NewKVCache
      [Op.evict ⟨"a", "i"⟩, Op.write ⟨"b", "j"⟩ (some [1]),
       Op.writeIfNotExist ⟨"b", "j"⟩ none, Op.read ⟨"c", "i"⟩,
       Op.append [KVStoreCache.kv NewKVCache, KVStoreCache.foreign]]).cache.get "a").isSome
      = true :=
  bucket_presence.2.2.2.2 NewKVCache
    [Op.evict ⟨"a", "i"⟩, Op.write ⟨"b", "j"⟩ (some [1]),
     Op.writeIfNotExist ⟨"b", "j"⟩ none, Op.read ⟨"c", "i"⟩,
     Op.append [KVStoreCache.kv NewKVCache, KVStoreCache.foreign]] "a"
    ⟨Op.evict ⟨"a", "i"⟩, List.mem_cons_self _ _, by decide⟩

/-! ## Append as a replay of the source -/

/-- Replaying one key of a source whose tombstones have the nil payload writes the
source's entry for that key and changes no other entry. -/
theorem entry_replayKey (S c : kvCache) (k j : kvCacheKey) (hS : TombstonesCleared S) :
    entry (replayKey S c k) j = if j = k then (entry S k).or (entry c j) else entry c j := by
  have hjk : (j.key1 = k.key1 ∧ j.key2 = k.key2) ↔ j = k := by
    constructor
    · rintro ⟨h1, h2⟩
      cases j; cases k
      simp only at h1 h2
      rw [h1, h2]
    · rintro rfl
      exact ⟨rfl, rfl⟩
  cases hk : entry S k with
  | none =>
    have hst : replayKey S c k = c := by simp [replayKey, hk]
    rw [hst]
    by_cases h : j = k <;> simp [h]
  | some n =>
    cases hd : n.deleted with
    | true =>
      have hst : replayKey S c k = Evict c k := by simp [replayKey, hk, hd]
      have hv := hS k n hk hd
      have hn : ({ value := none, deleted := true } : node) = n := by
        cases n
        simp only at hv hd
        rw [hv, hd]
      rw [hst, entry_Evict]
      by_cases h : j = k
      · rw [if_pos (hjk.2 h), if_pos h, hn]
        rfl
      · rw [if_neg (fun h2 => h (hjk.1 h2)), if_neg h]
    | false =>
      have hst : replayKey S c k = Write c k n.value := by simp [replayKey, hk, hd]
      have hn : ({ value := n.value, deleted := false } : node) = n := by
        cases n
        simp only at hd
        rw [hd]
      rw [hst, entry_Write]
      by_cases h : j = k
      · rw [if_pos (hjk.2 h), if_pos h, hn]
        rfl
      · rw [if_neg (fun h2 => h (hjk.1 h2)), if_neg h]

theorem entry_replay (S : kvCache) (hS : TombstonesCleared S) (ks : List kvCacheKey)
    (A : kvCache) (j : kvCacheKey) :
    entry (replay A S ks) j = if j ∈ ks then (entry S j).or (entry A j) else entry A j := by
  induction ks generalizing A with
  | nil => simp [replay]
  | cons a rest ih =>
    have hstep : replay A S (a :: rest) = replay (replayKey S A a) S rest := rfl
    rw [hstep, ih, entry_replayKey S A a j hS]
    by_cases hja : j = a
    · subst hja
      by_cases hr : j ∈ rest
      · cases hj : entry S j <;> simp [hr]
      · simp [hr]
    · by_cases hr : j ∈ rest <;> simp [hja, hr]

theorem isSome_replayKey (S c : kvCache) (k : kvCacheKey) (b : String) :
    ((replayKey S c k).cache.get b).isSome
      = (((entry S k).isSome && decide (b = k.key1)) || (c.cache.get b).isSome) := by
  cases hk : entry S k with
  | none =>
    have hst : replayKey S c k = c := by simp [replayKey, hk]
    rw [hst]
    simp
  | some n =>
    cases hd : n.deleted with
    | true =>
      have hst : replayKey S c k = Evict c k := by simp [replayKey, hk, hd]
      rw [hst, isSome_Evict]
      simp
    | false =>
      have hst : replayKey S c k = Write c k n.value := by simp [replayKey, hk, hd]
      rw [hst, isSome_Write]
      simp

theorem isSome_replay (S : kvCache) (ks : List kvCacheKey) (A : kvCache) (b : String) :
    ((replay A S ks).cache.get b).isSome = true ↔
      ((A.cache.get b).isSome = true ∨
        ∃ k ∈ ks, (entry S k).isSome = true ∧ k.key1 = b) := by
  induction ks generalizing A with
  | nil => simp [replay]
  | cons a rest ih =>
    have hstep : replay A S (a :: rest) = replay (replayKey S A a) S rest := rfl
    rw [hstep, ih, isSome_replayKey]
    simp only [Bool.or_eq_true, Bool.and_eq_true, decide_eq_true_eq]
    constructor
    · rintro ((⟨h1, h2⟩ | h) | ⟨k, hk, h1, h2⟩)
      · exact Or.inr ⟨a, List.mem_cons_self _ _, h1, h2.symm⟩
      · exact Or.inl h
      · exact Or.inr ⟨k, List.mem_cons_of_mem _ hk, h1, h2⟩
    · rintro (h | ⟨k, hk, h1, h2⟩)
      · exact Or.inl (Or.inr h)
      · rcases List.mem_cons.1 hk with rfl | hk
        · exact Or.inl (Or.inl ⟨h1, h2.symm⟩)
        · exact Or.inr ⟨k, hk, h1, h2⟩

/-- C17. `Append` is a replay of the source: for a receiver state `A` and a reachable
source `S`, `A.Append(S)` leaves the receiver state that is reached from `A` by
applying, for the keys that have an entry in `S` and in any order, `Write(k, payload)`
when the entry of `S` is live and `Evict(k)` when it is a tombstone. -/
theorem Append_eq_replay (A S : kvCache) (hS : Reachable S) (ks : List kvCacheKey)
    (hks : ∀ k, k ∈ ks ↔ (entry S k).isSome = true) :
    (Append A [KVStoreCache.kv S]).1 = none ∧
    (Append A [KVStoreCache.kv S]).2 = replay A S ks := by
  refine ⟨rfl, ?_⟩
  show appendCache A S = replay A S ks
  apply kvCache_ext
  · intro b
    rw [Bool.eq_iff_iff, isSome_replay, isSome_appendCache, Bool.or_eq_true]
    constructor
    · rintro (h | h)
      · exact Or.inl h
      · obtain ⟨i, n, hn⟩ := noEmptyBucket_of_reachable hS b h
        exact Or.inr ⟨⟨b, i⟩, (hks _).2 (by simp [hn]), by simp [hn], rfl⟩
    · rintro (h | ⟨k, _, h1, h2⟩)
      · exact Or.inl h
      · exact Or.inr (by rw [← h2]; exact isSome_bucket_of_entry h1)
  · intro j
    rw [entry_appendCache, entry_replay S (tombstonesCleared_of_reachable hS)]
    by_cases hj : j ∈ ks
    · simp [hj]
    · have hn : entry S j = none := by
        cases h : entry S j with
        | none => rfl
        | some n => exact absurd ((hks j).2 (by simp [h])) hj
      simp [hj, hn]

/-- A source with a live key and a tombstone, replayed tombstone first. -/
theorem Append_eq_replay_witness :
    (Append (Write NewKVCache ⟨"b", "i"⟩ (some [9]))
        [KVStoreCache.kv (Evict (Write NewKVCache ⟨"b", "i"⟩ (some [1])) ⟨"c", "j"⟩)]).2
      = replay (Write NewKVCache ⟨"b", "i"⟩ (some [9]))
          (Evict (Write NewKVCache ⟨"b", "i"⟩ (some [1])) ⟨"c", "j"⟩)
          [⟨"c", "j"⟩, ⟨"b", "i"⟩] :=
  (Append_eq_replay (Write NewKVCache ⟨"b", "i"⟩ (some [9]))
    (Evict (Write NewKVCache ⟨"b", "i"⟩ (some [1])) ⟨"c", "j"⟩)
    (Reachable.evict _ _ (Reachable.write _ _ _ Reachable.new))
    [⟨"c", "j"⟩, ⟨"b", "i"⟩]
    (by
      intro k
      rw [entry_Evict, entry_Write]
      simp only [entry_NewKVCache, List.mem_cons, List.mem_singleton, List.not_mem_nil,
        or_false]
      constructor
      · rintro (rfl | rfl) <;> simp
      · intro h
        by_cases h1 : k.key1 = "c" ∧ k.key2 = "j"
        · left
          cases k
          simp only at h1
          rw [h1.1, h1.2]
        · by_cases h2 : k.key1 = "b" ∧ k.key2 = "i"
          · right
            cases k
            simp only at h2
            rw [h2.1, h2.2]
          · simp [h1, h2] at h)).2

/-! ## The store: no inner map is shared -/

theorem store_get_view (st : Store) (a : Nat) (b : String) :
    (st.view a).cache.get b = ((st.outer a).get b).map st.inner := rfl

theorem store_view_ext {st st2 : Store} {a a2 : Nat}
    (h : ∀ b, (st2.view a2).cache.get b = (st.view a).cache.get b) :
    st2.view a2 = st.view a :=
  congrArg kvCache.mk (GoMap.ext h)

theorem store_separated_empty : Store.empty.Separated := by
  constructor
  · intro a b r h
    cases h
  · intro a a2 b b2 r h
    cases h

theorem store_frames_refl (a : Nat) (st : Store) (hsep : st.Separated) :
    Store.Frames a st st :=
  ⟨hsep, fun _ _ => rfl⟩

theorem store_frames_trans {a : Nat} {st st1 st2 : Store}
    (h1 : Store.Frames a st st1) (h2 : Store.Frames a st1 st2) : Store.Frames a st st2 :=
  ⟨h2.1, fun s hs => (h2.2 s hs).trans (h1.2 s hs)⟩

/-- The guard does nothing when the bucket is present. -/
theorem store_ensure_of_present (st : Store) (a : Nat) (b : String) (r : Ref)
    (h : (st.outer a).get b = some r) : st.ensure a b = st := by
  unfold Store.ensure
  simp [h]

/-- The guard on a store without sharing: nothing is shared afterwards, the other
cache objects keep their states, and the receiver's state is the one the guard of
the by-value model leaves. -/
theorem store_ensure (st : Store) (hsep : st.Separated) (a : Nat) (b : String) :
    Store.Frames a st (st.ensure a b) ∧
    (st.ensure a b).view a
      = (if ((st.view a).cache.get b).isNone
          then ({ cache := (st.view a).cache.set b GoMap.make } : kvCache)
          else st.view a) ∧
    (∃ r, ((st.ensure a b).outer a).get b = some r) ∧
    (∀ r, r < st.next → (st.ensure a b).inner r = st.inner r) := by
  cases hg : (st.outer a).get b with
  | some r =>
    rw [store_ensure_of_present st a b r hg]
    refine ⟨store_frames_refl a st hsep, ?_, ⟨r, hg⟩, fun _ _ => rfl⟩
    simp [store_get_view, hg]
  | none =>
    have hst : st.ensure a b =
        { outer := Function.update st.outer a ((st.outer a).set b st.next)
          inner := Function.update st.inner st.next GoMap.make
          next := st.next + 1 } := by
      unfold Store.ensure
      simp [hg]
    rw [hst]
    have hget : ∀ a2 b2 r, ((Function.update st.outer a ((st.outer a).set b st.next)) a2).get b2
        = some r → (a2 = a ∧ b2 = b ∧ r = st.next) ∨ (st.outer a2).get b2 = some r := by
      intro a2 b2 r h
      by_cases ha : a2 = a
      · subst ha
        rw [Function.update_same, GoMap.get_set] at h
        by_cases hb : b2 = b
        · rw [if_pos hb] at h
          exact Or.inl ⟨rfl, hb, (Option.some.inj h).symm⟩
        · rw [if_neg hb] at h
          exact Or.inr h
      · rw [Function.update_noteq ha] at h
        exact Or.inr h
    have hinner : ∀ r, r < st.next →
        Function.update st.inner st.next GoMap.make r = st.inner r := by
      intro r hr
      rw [Function.update_noteq (Nat.ne_of_lt hr)]
    refine ⟨⟨⟨?_, ?_⟩, ?_⟩, ?_, ?_, hinner⟩
    · intro a2 b2 r h
      rcases hget a2 b2 r h with ⟨_, _, h3⟩ | h3
      · rw [h3]
        exact Nat.lt_succ_self _
      · exact Nat.lt_succ_of_lt (hsep.1 a2 b2 r h3)
    · intro a1 a2 b1 b2 r h1 h2
      rcases hget a1 b1 r h1 with ⟨e1, e2, e3⟩ | h1
      · rcases hget a2 b2 r h2 with ⟨f1, f2, _⟩ | h2
        · exact ⟨e1.trans f1.symm, e2.trans f2.symm⟩
        · have hlt := hsep.1 a2 b2 r h2
          rw [e3] at hlt
          exact absurd hlt (Nat.lt_irrefl _)
      · rcases hget a2 b2 r h2 with ⟨_, _, f3⟩ | h2
        · have hlt := hsep.1 a1 b1 r h1
          rw [f3] at hlt
          exact absurd hlt (Nat.lt_irrefl _)
        · exact hsep.2 a1 a2 b1 b2 r h1 h2
    · intro s hs
      apply store_view_ext
      intro b2
      simp only [store_get_view]
      rw [Function.update_noteq hs]
      cases h : (st.outer s).get b2 with
      | none => rfl
      | some r =>
        simp only [Option.map_some']
        rw [hinner r (hsep.1 s b2 r h)]
    · have hnone : ((st.view a).cache.get b).isNone = true := by
        simp [store_get_view, hg]
      rw [if_pos hnone]
      apply congrArg kvCache.mk
      apply GoMap.ext
      intro b2
      show ((Function.update st.outer a ((st.outer a).set b st.next) a).get b2).map
          (Function.update st.inner st.next GoMap.make) = _
      rw [Function.update_same, GoMap.get_set, GoMap.get_set]
      by_cases hb : b2 = b
      · simp [hb]
      · rw [if_neg hb, if_neg hb, store_get_view]
        cases h : (st.outer a).get b2 with
        | none => rfl
        | some r =>
          simp only [Option.map_some']
          rw [hinner r (hsep.1 a b2 r h)]
    · refine ⟨st.next, ?_⟩
      show ((Function.update st.outer a ((st.outer a).set b st.next)) a).get b = some st.next
      rw [Function.update_same, GoMap.get_set_self]

/-- Writing into the inner map object of bucket `b` of the cache object `a`, in a
store without sharing: only that bucket of that cache object changes. -/
theorem store_update_inner (st : Store) (hsep : st.Separated) (a : Nat) (b : String)
    (r : Ref) (hr : (st.outer a).get b = some r) (m : GoMap node) :
    Store.Frames a st { st with inner := Function.update st.inner r m } ∧
    Store.view { st with inner := Function.update st.inner r m } a
      = { cache := (st.view a).cache.set b m } := by
  refine ⟨⟨hsep, ?_⟩, ?_⟩
  · intro s hs
    apply store_view_ext
    intro b2
    simp only [store_get_view]
    cases h : (st.outer s).get b2 with
    | none => rfl
    | some r2 =>
      have hne : r2 ≠ r := by
        intro e
        rw [e] at h
        exact hs (hsep.2 s a b2 b r h hr).1
      simp only [Option.map_some']
      rw [Function.update_noteq hne]
  · apply congrArg kvCache.mk
    apply GoMap.ext
    intro b2
    show ((st.outer a).get b2).map (Function.update st.inner r m) = _
    rw [GoMap.get_set]
    by_cases hb : b2 = b
    · rw [if_pos hb, hb, hr]
      simp
    · rw [if_neg hb, store_get_view]
      cases h : (st.outer a).get b2 with
      | none => rfl
      | some r2 =>
        have hne : r2 ≠ r := by
          intro e
          rw [e] at h
          exact hb (hsep.2 a a b2 b r h hr).2
        simp only [Option.map_some']
        rw [Function.update_noteq hne]

/-- The nested assignment on a store without sharing refines the nested assignment
of the by-value model and leaves the other cache objects alone. -/
theorem store_assign (st : Store) (hsep : st.Separated) (a : Nat) (k1 k2 : String)
    (n : node) :
    Store.Frames a st (st.assign a k1 k2 n) ∧
    (st.assign a k1 k2 n).view a
      = { cache := GoMap.setIn (st.view a).cache k1 k2 n } := by
  unfold Store.assign GoMap.setIn
  cases hg : (st.outer a).get k1 with
  | none =>
    refine ⟨store_frames_refl a st hsep, ?_⟩
    simp [store_get_view, hg]
  | some r =>
    have h := store_update_inner st hsep a k1 r hg ((st.inner r).set k2 n)
    refine ⟨h.1, ?_⟩
    rw [h.2]
    simp [store_get_view, hg]

/-- `Read` on a cache object returns what `Read` of the by-value model returns on
its state, and hands back the store. -/
theorem store_Read (st : Store) (a : Nat) (k : kvCacheKey) :
    st.Read a k = ((Read (st.view a) k).1, st) := by
  unfold Store.Read Read
  simp only [store_get_view]
  cases (st.outer a).get k.key1 with
  | none => rfl
  | some r =>
    simp only [Option.map_some']
    cases (st.inner r).get k.key2 with
    | none => rfl
    | some n => cases hd : n.deleted <;> simp [hd]

theorem store_Write (st : Store) (hsep : st.Separated) (a : Nat) (k : kvCacheKey)
    (v : Bytes) :
    Store.Frames a st (st.Write a k v) ∧ (st.Write a k v).view a = Write (st.view a) k v := by
  obtain ⟨hf1, hv1, _, _⟩ := store_ensure st hsep a k.key1
  obtain ⟨hf2, hv2⟩ := store_assign (st.ensure a k.key1) hf1.1 a k.key1 k.key2
    { value := v, deleted := false }
  refine ⟨store_frames_trans hf1 hf2, ?_⟩
  show ((st.ensure a k.key1).assign a k.key1 k.key2 _).view a = _
  rw [hv2, hv1]
  rfl

theorem store_Evict (st : Store) (hsep : st.Separated) (a : Nat) (k : kvCacheKey) :
    Store.Frames a st (st.Evict a k) ∧ (st.Evict a k).view a = Evict (st.view a) k := by
  obtain ⟨hf1, hv1, _, _⟩ := store_ensure st hsep a k.key1
  obtain ⟨hf2, hv2⟩ := store_assign (st.ensure a k.key1) hf1.1 a k.key1 k.key2
    { value := none, deleted := true }
  refine ⟨store_frames_trans hf1 hf2, ?_⟩
  show ((st.ensure a k.key1).assign a k.key1 k.key2 _).view a = _
  rw [hv2, hv1]
  rfl

theorem store_WriteIfNotExist (st : Store) (hsep : st.Separated) (a : Nat)
    (k : kvCacheKey) (v : Bytes) :
    Store.Frames a st (st.WriteIfNotExist a k v).2 ∧
    (st.WriteIfNotExist a k v).1 = (WriteIfNotExist (st.view a) k v).1 ∧
    (st.WriteIfNotExist a k v).2.view a = (WriteIfNotExist (st.view a) k v).2 := by
  obtain ⟨hf1, hv1, _, _⟩ := store_ensure st hsep a k.key1
  obtain ⟨hf2, hv2⟩ := store_assign (st.ensure a k.key1) hf1.1 a k.key1 k.key2
    { value := v, deleted := false }
  have hfound : (match ((st.ensure a k.key1).outer a).get k.key1 with
      | some r => ((st.ensure a k.key1).inner r).get k.key2
      | none => none)
      = GoMap.getIn ((st.ensure a k.key1).view a).cache k.key1 k.key2 := by
    unfold GoMap.getIn
    rw [store_get_view]
    cases ((st.ensure a k.key1).outer a).get k.key1 <;> rfl
  unfold Store.WriteIfNotExist WriteIfNotExist
  simp only [hfound]
  rw [← hv1]
  cases GoMap.getIn ((st.ensure a k.key1).view a).cache k.key1 k.key2 with
  | none => exact ⟨store_frames_trans hf1 hf2, rfl, hv2⟩
  | some n =>
    cases n with
    | mk val del =>
      cases del with
      | true => exact ⟨store_frames_trans hf1 hf2, rfl, hv2⟩
      | false => exact ⟨hf1, rfl, rfl⟩

theorem store_Clear (st : Store) (hsep : st.Separated) (a : Nat) :
    Store.Frames a st (st.Clear a) ∧ (st.Clear a).view a = Clear (st.view a) := by
  have hget : ∀ a2 b2 r, ((Function.update st.outer a GoMap.make) a2).get b2 = some r →
      a2 ≠ a ∧ (st.outer a2).get b2 = some r := by
    intro a2 b2 r h
    by_cases ha : a2 = a
    · subst ha
      rw [Function.update_same] at h
      cases h
    · rw [Function.update_noteq ha] at h
      exact ⟨ha, h⟩
  refine ⟨⟨⟨?_, ?_⟩, ?_⟩, ?_⟩
  · intro a2 b2 r h
    exact hsep.1 a2 b2 r (hget a2 b2 r h).2
  · intro a1 a2 b1 b2 r h1 h2
    exact hsep.2 a1 a2 b1 b2 r (hget a1 b1 r h1).2 (hget a2 b2 r h2).2
  · intro s hs
    apply store_view_ext
    intro b2
    show ((Function.update st.outer a GoMap.make s).get b2).map st.inner = _
    rw [Function.update_noteq hs]
    rfl
  · show ({ cache := fun b =>
        ((Function.update st.outer a GoMap.make a).get b).map st.inner } : kvCache)
      = { cache := GoMap.make }
    rw [Function.update_same]
    rfl

/-- The loop body of `Append` on a store without sharing: nothing is shared
afterwards, the other cache objects keep their states, and the receiver's state is
the one the loop body of the by-value model leaves. -/
theorem store_appendBucket (st : Store) (hsep : st.Separated) (a s : Nat) (key1 : String) :
    Store.Frames a st (st.appendBucket a s key1) ∧
    (st.appendBucket a s key1).view a
      = { cache := match (st.view s).cache.get key1 with
            | some ns => appendBucket (st.view a).cache key1 ns
            | none => (st.view a).cache } := by
  cases hs : (st.outer s).get key1 with
  | none =>
    have hst : st.appendBucket a s key1 = st := by
      unfold Store.appendBucket
      simp [hs]
    rw [hst]
    refine ⟨store_frames_refl a st hsep, ?_⟩
    simp [store_get_view, hs]
  | some rs =>
    obtain ⟨hf1, hv1, ⟨r, hr⟩, hinner⟩ := store_ensure st hsep a key1
    have hst : st.appendBucket a s key1 =
        { st.ensure a key1 with
          inner := Function.update (st.ensure a key1).inner r
            (GoMap.copy ((st.ensure a key1).inner r) ((st.ensure a key1).inner rs)) } := by
      unfold Store.appendBucket
      simp [hs, hr]
    obtain ⟨hf2, hv2⟩ := store_update_inner (st.ensure a key1) hf1.1 a key1 r hr
      (GoMap.copy ((st.ensure a key1).inner r) ((st.ensure a key1).inner rs))
    rw [hst]
    refine ⟨store_frames_trans hf1 hf2, ?_⟩
    rw [hv2]
    have hrs : (st.ensure a key1).inner rs = st.inner rs := hinner rs (hsep.1 s key1 rs hs)
    have hsrc : (st.view s).cache.get key1 = some (st.inner rs) := by
      simp [store_get_view, hs]
    have hdst : ((st.ensure a key1).view a).cache.get key1
        = some ((st.ensure a key1).inner r) := by
      simp [store_get_view, hr]
    have hm1 : (if ((st.view a).cache.get key1).isNone
        then (st.view a).cache.set key1 GoMap.make else (st.view a).cache)
        = ((st.ensure a key1).view a).cache := by
      rw [hv1]
      cases ((st.view a).cache.get key1).isNone <;> rfl
    apply congrArg kvCache.mk
    rw [hsrc]
    show _ = appendBucket (st.view a).cache key1 (st.inner rs)
    unfold appendBucket
    simp only [hm1, hdst, hrs]

/-- Merging a cache object into itself leaves the store as it is. -/
theorem store_appendBucket_self (st : Store) (a : Nat) (key1 : String) :
    st.appendBucket a a key1 = st := by
  cases hs : (st.outer a).get key1 with
  | none =>
    unfold Store.appendBucket
    simp [hs]
  | some rs =>
    have hcopy : GoMap.copy (st.inner rs) (st.inner rs) = st.inner rs := by
      apply GoMap.ext
      intro i
      rw [GoMap.get_copy]
      cases (st.inner rs).get i <;> rfl
    unfold Store.appendBucket
    simp only [hs, store_ensure_of_present st a key1 rs hs, hcopy, Function.update_eq_self]

theorem store_appendCache_frames (a s : Nat) (order : List String) (st : Store)
    (hsep : st.Separated) : Store.Frames a st (st.appendCache a s order) := by
  induction order generalizing st with
  | nil => exact store_frames_refl a st hsep
  | cons key1 rest ih =>
    have h1 := (store_appendBucket st hsep a s key1).1
    exact store_frames_trans h1 (ih _ h1.1)

theorem store_appendCache_self (a : Nat) (order : List String) (st : Store) :
    st.appendCache a a order = st := by
  induction order with
  | nil => rfl
  | cons key1 rest ih =>
    show Store.appendCache (st.appendBucket a a key1) a a rest = st
    rw [store_appendBucket_self]
    exact ih

theorem store_Append_frames (a : Nat) (args : List CacheArg) (st : Store)
    (hsep : st.Separated) : Store.Frames a st (st.Append a args).2 := by
  induction args generalizing st with
  | nil => exact store_frames_refl a st hsep
  | cons arg rest ih =>
    cases arg with
    | foreign => exact store_frames_refl a st hsep
    | cache s order =>
      have h1 := store_appendCache_frames a s order st hsep
      exact store_frames_trans h1 (ih _ h1.1)

/-- The loop of `Append` for a source other than the receiver, run on a store without
sharing, leaves the receiver in the state of the by-value loop. -/
theorem store_appendCache_view (a s : Nat) (hs : s ≠ a) (order : List String) (st : Store)
    (hsep : st.Separated) :
    (st.appendCache a s order).view a
      = { cache := order.foldl (fun m key1 =>
            match (st.view s).cache.get key1 with
            | some ns => appendBucket m key1 ns
            | none => m) (st.view a).cache } := by
  induction order generalizing st with
  | nil => rfl
  | cons key1 rest ih =>
    obtain ⟨hf, hv⟩ := store_appendBucket st hsep a s key1
    show (Store.appendCache (st.appendBucket a s key1) a s rest).view a = _
    rw [ih _ hf.1, hf.2 s hs, hv]
    rfl

/-- `Append` on a cache object of a store without sharing returns what `Append` of the
by-value model returns on the object's state and the states of the sources, and
leaves the object in the state the by-value `Append` leaves; `order` lists the buckets
of each source in the order `range` yields them. -/
theorem store_Append_refines (a : Nat) (args : List CacheArg) (st : Store)
    (hsep : st.Separated)
    (horder : ∀ s order, CacheArg.cache s order ∈ args → s ≠ a →
      ∀ b, b ∈ order ↔ ((st.view s).cache.get b).isSome = true) :
    (st.Append a args).1 = (Append (st.view a) (args.map (st.toKVStoreCache a))).1 ∧
    (st.Append a args).2.view a = (Append (st.view a) (args.map (st.toKVStoreCache a))).2 := by
  induction args generalizing st with
  | nil => exact ⟨rfl, rfl⟩
  | cons arg rest ih =>
    cases arg with
    | foreign => exact ⟨rfl, rfl⟩
    | cache s order =>
      have hf := store_appendCache_frames a s order st hsep
      have hmap : rest.map ((st.appendCache a s order).toKVStoreCache a)
          = rest.map (st.toKVStoreCache a) := by
        apply List.map_congr_left
        intro x _
        cases x with
        | foreign => rfl
        | cache s2 order2 =>
          unfold Store.toKVStoreCache
          by_cases h2 : s2 = a
          · simp [h2]
          · simp only [if_neg h2]
            rw [hf.2 s2 h2]
      have hrest := ih (st.appendCache a s order) hf.1 (by
        intro s2 order2 hmem h2 b
        rw [hf.2 s2 h2]
        exact horder s2 order2 (List.mem_cons_of_mem _ hmem) h2 b)
      rw [hmap] at hrest
      show (Store.Append (st.appendCache a s order) a rest).1 = _ ∧
        (Store.Append (st.appendCache a s order) a rest).2.view a = _
      by_cases hsa : s = a
      · subst hsa
        have hval : Append (st.view s)
            ((CacheArg.cache s order :: rest).map (st.toKVStoreCache s))
            = Append (st.view s) (rest.map (st.toKVStoreCache s)) := by
          show Append (st.view s)
            ((if s = s then KVStoreCache.self else KVStoreCache.kv (st.view s)) ::
              rest.map (st.toKVStoreCache s)) = _
          rw [if_pos rfl]
          show Append (appendCache (st.view s) (st.view s)) _ = _
          rw [appendCache_self]
        rw [hval]
        rw [store_appendCache_self] at hrest ⊢
        exact hrest
      · have hview : (st.appendCache a s order).view a
            = appendCache (st.view a) (st.view s) := by
          rw [store_appendCache_view a s hsa order st hsep]
          apply congrArg kvCache.mk
          exact appendCache_eq_loop (st.view a) (st.view s) order
            (horder s order (List.mem_cons_self _ _) hsa)
        have hval : Append (st.view a)
            ((CacheArg.cache s order :: rest).map (st.toKVStoreCache a))
            = Append (appendCache (st.view a) (st.view s)) (rest.map (st.toKVStoreCache a)) := by
          show Append (st.view a)
            ((if s = a then KVStoreCache.self else KVStoreCache.kv (st.view s)) ::
              rest.map (st.toKVStoreCache a)) = _
          rw [if_neg hsa]
          rfl
        rw [hval, ← hview]
        exact hrest

/-- C19. `Append` does not modify its sources. In a store where no inner map is
shared, after `A.Append(args...)` every cache object other than `A`, so each source,
holds exactly the state it held before, and still no inner map is shared: a later
`Write`, `WriteIfNotExist`, `Evict` or `Clear` on `A` changes no `Read` result of
another cache object `S`, and such a call on `S` changes no `Read` result of `A`.
Appending a cache to itself, `A.Append(A)`, leaves the store as it is. -/
theorem Append_leaves_sources (st : Store) (hsep : st.Separated) (a s : Nat) (hs : s ≠ a)
    (args : List CacheArg) :
    (st.Append a args).2.view s = st.view s ∧
    (st.Append a args).2.Separated ∧
    (∀ k v j,
      (((st.Append a args).2.Write a k v).Read s j).1 = (st.Read s j).1 ∧
      (((st.Append a args).2.WriteIfNotExist a k v).2.Read s j).1 = (st.Read s j).1 ∧
      (((st.Append a args).2.Evict a k).Read s j).1 = (st.Read s j).1 ∧
      (((st.Append a args).2.Clear a).Read s j).1 = (st.Read s j).1) ∧
    (∀ k v j,
      (((st.Append a args).2.Write s k v).Read a j).1 = ((st.Append a args).2.Read a j).1 ∧
      (((st.Append a args).2.WriteIfNotExist s k v).2.Read a j).1
        = ((st.Append a args).2.Read a j).1 ∧
      (((st.Append a args).2.Evict s k).Read a j).1 = ((st.Append a args).2.Read a j).1 ∧
      (((st.Append a args).2.Clear s).Read a j).1 = ((st.Append a args).2.Read a j).1) ∧
    (∀ order, (st.Append a [CacheArg.cache a order]).2 = st) := by
  have hf := store_Append_frames a args st hsep
  have hread : ∀ (x y : Store) (p q : Nat) (j : kvCacheKey), x.view p = y.view q →
      (x.Read p j).1 = (y.Read q j).1 := by
    intro x y p q j h
    rw [store_Read, store_Read, h]
  refine ⟨hf.2 s hs, hf.1, ?_, ?_, ?_⟩
  · intro k v j
    refine ⟨hread _ _ _ _ j ?_, hread _ _ _ _ j ?_, hread _ _ _ _ j ?_, hread _ _ _ _ j ?_⟩
    · rw [(store_Write _ hf.1 a k v).1.2 s hs, hf.2 s hs]
    · rw [(store_WriteIfNotExist _ hf.1 a k v).1.2 s hs, hf.2 s hs]
    · rw [(store_Evict _ hf.1 a k).1.2 s hs, hf.2 s hs]
    · rw [(store_Clear _ hf.1 a).1.2 s hs, hf.2 s hs]
  · intro k v j
    have hne : a ≠ s := fun h => hs h.symm
    refine ⟨hread _ _ _ _ j ?_, hread _ _ _ _ j ?_, hread _ _ _ _ j ?_, hread _ _ _ _ j ?_⟩
    · exact (store_Write _ hf.1 s k v).1.2 a hne
    · exact (store_WriteIfNotExist _ hf.1 s k v).1.2 a hne
    · exact (store_Evict _ hf.1 s k).1.2 a hne
    · exact (store_Clear _ hf.1 s).1.2 a hne
  · intro order
    show (Store.Append (st.appendCache a a order) a []).2 = st
    rw [store_appendCache_self]
    rfl

/-- Cache object `0` holds `("b", "k") = [1]`, cache object `1` holds
`("b", "k") = [2]`. After `0.Append(1)` and a `Write` of `[9]` on object `0`, object
`1` still reads `[2]` and object `0` reads `[9]`. -/
theorem Append_leaves_sources_witness :
    ((((((Store.empty.Write 0 ⟨"b", "k"⟩ (some [1])).Write 1 ⟨"b", "k"⟩ (some [2])).Append 0
        [CacheArg.cache 1 ["b"]]).2.Write 0 ⟨"b", "k"⟩ (some [9])).Read 1 ⟨"b", "k"⟩).1
      = (some [2], none)) ∧
    ((((((Store.empty.Write 0 ⟨"b", "k"⟩ (some [1])).Write 1 ⟨"b", "k"⟩ (some [2])).Append 0
        [CacheArg.cache 1 ["b"]]).2.Write 0 ⟨"b", "k"⟩ (some [9])).Read 0 ⟨"b", "k"⟩).1
      = (some [9], none)) :=
  ⟨((Append_leaves_sources
      ((Store.empty.Write 0 ⟨"b", "k"⟩ (some [1])).Write 1 ⟨"b", "k"⟩ (some [2]))
      (store_Write _ (store_Write _ store_separated_empty 0 _ _).1.1 1 _ _).1.1
      0 1 (by decide) [CacheArg.cache 1 ["b"]]).2.2.1
        ⟨"b", "k"⟩ (some [9]) ⟨"b", "k"⟩).1.trans (by decide),
   by decide⟩

end Batch
